import Mathlib

/-!
go-mpx: session manager, registry resolver and request builder

A shallow embedding of `mpx/authclient.go` and `mpx/dsclient.go`.

* Go strings are sequences of characters (`List Char`); every operation used by
  the program (`strings.LastIndex` on the one-byte separator `/`, slicing after
  it, `strings.Join`, byte-wise sorting, percent-escaping of UTF-8 bytes) agrees
  on valid UTF-8 text with its byte-level counterpart.
* Go maps are association lists with distinct keys (`url.Values`) or insertion
  histories in which the last binding of a key wins (decoded JSON objects).
* A run-time panic is an explicit outcome, and so is `log.Fatal`.
* The HTTP transport and `net/url.Parse` are collaborators of the program and
  are parameters of the model (`Env`); `net/url.ParseRequestURI`, which decides
  what the constructor accepts, is modelled after the library.
-/

namespace Mpx

/-- Go `string`. -/
abbrev GoString := List Char

/-! ## Constants of `authclient.go` -/

def DefaultAccess : GoString := "http://access.auth.theplatform.com".toList
def DefaultIdm : GoString := "https://identity.auth.theplatform.com/idm".toList
def DefaultAcct : GoString := "http://access.auth.theplatform.com/data/Account/1".toList
def AuthAgent : GoString := "Go-MPX AuthClient".toList
def SignInPath : GoString := "/web/Authentication/signIn".toList
def SignOutPath : GoString := "/web/Authentication/signOut".toList
def RegistryPath : GoString := "/web/Registry/resolveDomain".toList

/-! ## Run-time failures -/

/-- Run-time panics the program can raise. -/
inductive Panic where
  /-- Selector or method call through a nil pointer or nil interface. -/
  | nilDeref
  /-- Failed single-value type assertion `x.(T)`. -/
  | typeAssert
  /-- Index out of range, `v[0]` on an empty slice. -/
  | indexOutOfRange
  /-- Assignment to an entry in a nil map. -/
  | nilMapWrite
  /-- Explicit call `panic(msg)`. -/
  | explicit (msg : GoString)
  deriving DecidableEq

/-- Values of Go type `error` produced by the program or handed to it. -/
inductive Error where
  /-- Error of `net/url` (from `url.ParseRequestURI` or `http.NewRequest`). -/
  | url (raw : GoString)
  /-- Error of `json.Unmarshal`. -/
  | json
  /-- The `badStringError` struct of `authclient.go`. -/
  | badString (what str : GoString)
  deriving DecidableEq

/-! ## `strings` -/

/-- Loop of `strings.LastIndex(s, sep)` for a one-character `sep`: scans `s` from position `i`,
remembering in `acc` the last position at which `sep` was seen. -/
def lastIndexFrom (sep : Char) : GoString → Nat → Int → Int
  | [], _, acc => acc
  | x :: xs, i, acc => lastIndexFrom sep xs (i + 1) (if x = sep then (i : Int) else acc)

/-- Go `strings.LastIndex(s, sep)` for a one-character separator: the index of the last
occurrence, or `-1`. -/
def LastIndex (s : GoString) (sep : Char) : Int := lastIndexFrom sep s 0 (-1)

/-- Go `strings.Join(elems, sep)`. -/
def Join : List GoString → GoString → GoString
  | [], _ => []
  | [a], _ => a
  | a :: b :: rest, sep => a ++ sep ++ Join (b :: rest) sep

/-! ## `net/url`: `Values`, `QueryEscape`, `Encode` -/

/-- Go `url.Values`, a `map[string][]string`. A nil map is `none : Option Values`. -/
abbrev Values := AList (fun _ : GoString => List GoString)

/-- Go `Values.Get`: the first value of the key, or the empty string. -/
def Values.Get (v : Values) (key : GoString) : GoString :=
  match v.lookup key with
  | some (x :: _) => x
  | _ => []

/-- Go `Values.Set`: replaces the values of the key by the single given one. -/
def Values.Set (v : Values) (key value : GoString) : Values := v.insert key [value]

/-- The UTF-8 bytes of a character. -/
def utf8Bytes (c : Char) : List Nat :=
  let n := c.toNat
  if n < 0x80 then [n]
  else if n < 0x800 then [0xC0 + n / 64, 0x80 + n % 64]
  else if n < 0x10000 then [0xE0 + n / 4096, 0x80 + n / 64 % 64, 0x80 + n % 64]
  else [0xF0 + n / 262144, 0x80 + n / 4096 % 64, 0x80 + n / 64 % 64, 0x80 + n % 64]

/-- Go `shouldEscape(c, encodeQueryComponent)`: only the unreserved bytes stay. -/
def shouldEscape (c : Nat) : Bool :=
  if ('a'.toNat ≤ c ∧ c ≤ 'z'.toNat) ∨ ('A'.toNat ≤ c ∧ c ≤ 'Z'.toNat)
      ∨ ('0'.toNat ≤ c ∧ c ≤ '9'.toNat) then false
  else if c = '-'.toNat ∨ c = '_'.toNat ∨ c = '.'.toNat ∨ c = '~'.toNat then false
  else true

/-- Go `upperhex[n]`. -/
def upperhex (n : Nat) : Char := "0123456789ABCDEF".toList.getD n '0'

/-- One byte of `escape(s, encodeQueryComponent)`. -/
def escapeByte (c : Nat) : GoString :=
  if c = ' '.toNat then ['+']
  else if shouldEscape c then ['%', upperhex (c / 16), upperhex (c % 16)]
  else [Char.ofNat c]

/-- Go `url.QueryEscape`. -/
def QueryEscape (s : GoString) : GoString := (s.flatMap utf8Bytes).flatMap escapeByte

/-- Byte-wise lexicographic order of Go strings (`a <= b`), the order of `slices.Sort`. -/
def strLe : GoString → GoString → Bool
  | [], _ => true
  | _ :: _, [] => false
  | a :: as, b :: bs => if a < b then true else if b < a then false else strLe as bs

/-- The keys of a `Values` map in ascending order, as `Encode` collects and sorts them. -/
def sortedKeys (v : Values) : List GoString :=
  v.keys.insertionSort (fun a b => strLe a b = true)

/-- The `key=value` pairs `Encode` writes for one key, in the order of its values. -/
def encodePairs (v : Values) (k : GoString) : List GoString :=
  ((v.lookup k).getD []).map (fun x => QueryEscape k ++ ['='] ++ QueryEscape x)

/-- Go `Values.Encode` on a non-nil map: keys sorted, every pair written as
`QueryEscape(k)=QueryEscape(v)`, pairs separated by `&`. -/
def Values.Encode (v : Values) : GoString :=
  Join ((sortedKeys v).flatMap (encodePairs v)) ['&']

/-- Go `Values.Encode` on a possibly nil map (a nil map has length zero and encodes to `""`). -/
def Encode : Option Values → GoString
  | none => []
  | some v => v.Encode

/-! ## `net/url`: `ParseRequestURI` -/

/-- Go `stringContainsCTLByte`: a byte below `0x20` or the byte `0x7f`. -/
def stringContainsCTLByte (s : GoString) : Bool :=
  s.any (fun c => decide (c.toNat < 0x20) || decide (c.toNat = 0x7f))

/-- An ASCII letter, `'a' <= c && c <= 'z' || 'A' <= c && c <= 'Z'`. -/
def isLetter (c : Char) : Bool :=
  (decide ('a' ≤ c) && decide (c ≤ 'z')) || (decide ('A' ≤ c) && decide (c ≤ 'Z'))

/-- An ASCII digit, `'0' <= c && c <= '9'`. -/
def isDigit (c : Char) : Bool := decide ('0' ≤ c) && decide (c ≤ '9')

/-- The characters `getScheme` lets through after the first one: letters, digits, `+`, `-`
and `.`. -/
def isSchemeChar (c : Char) : Bool :=
  isLetter c || isDigit c || decide (c = '+') || decide (c = '-') || decide (c = '.')

/-- The loop of Go `getScheme` at byte `i`, with `s` the text from that byte on; `none` is
the error `missing protocol scheme`, otherwise the scheme and the rest. -/
def getSchemeLoop (rawURL : GoString) : GoString → Nat → Option (GoString × GoString)
  | [], _ => some ([], rawURL)
  | c :: cs, i =>
    if isLetter c then getSchemeLoop rawURL cs (i + 1)
    else if isDigit c || decide (c = '+') || decide (c = '-') || decide (c = '.') then
      if i = 0 then some ([], rawURL) else getSchemeLoop rawURL cs (i + 1)
    else if c = ':' then
      if i = 0 then none else some (rawURL.take i, cs)
    else some ([], rawURL)

/-- Go `getScheme`. -/
def getScheme (rawURL : GoString) : Option (GoString × GoString) :=
  getSchemeLoop rawURL rawURL 0

/-- The modes of Go `unescape` that `parse` uses. -/
inductive encoding where
  | encodePath
  | encodeHost
  | encodeZone
  | encodeUserPassword
  deriving DecidableEq

/-- Go `ishex`. -/
def ishex (c : Char) : Bool :=
  isDigit c || (decide ('a' ≤ c) && decide (c ≤ 'f'))
    || (decide ('A' ≤ c) && decide (c ≤ 'F'))

/-- Go `unhex`. -/
def unhex (c : Char) : Nat :=
  if isDigit c then c.toNat - '0'.toNat
  else if decide ('a' ≤ c) && decide (c ≤ 'f') then c.toNat - 'a'.toNat + 10
  else if decide ('A' ≤ c) && decide (c ≤ 'F') then c.toNat - 'A'.toNat + 10
  else 0

/-- Go `shouldEscape(c, encodeHost)` on a byte: letters, digits, the sub-delimiters, `:`,
`[`, `]`, `<`, `>`, the double quote and `-`, `_`, `.`, `~` may stay. -/
def shouldEscapeHost (c : Nat) : Bool :=
  if ('a'.toNat ≤ c ∧ c ≤ 'z'.toNat) ∨ ('A'.toNat ≤ c ∧ c ≤ 'Z'.toNat)
      ∨ ('0'.toNat ≤ c ∧ c ≤ '9'.toNat) then false
  else if c ∈ ['!'.toNat, '$'.toNat, '&'.toNat, 39, '('.toNat, ')'.toNat, '*'.toNat,
      '+'.toNat, ','.toNat, ';'.toNat, '='.toNat, ':'.toNat, '['.toNat, ']'.toNat,
      '<'.toNat, '>'.toNat, 34] then false
  else if c ∈ ['-'.toNat, '_'.toNat, '.'.toNat, '~'.toNat] then false
  else true

/-- Whether Go `unescape(s, mode)` returns no error: every `%` is followed by two
hexadecimal digits; in a host an escape stands for a byte from `0x80` on or is `%25`, and
an unescaped ASCII byte is one a host allows; in a zone an escape is `%25`, a space or a byte
a host allows. -/
def unescapeOk (mode : encoding) : GoString → Bool
  | [] => true
  | c :: rest =>
    if c = '%' then
      match rest with
      | h1 :: h2 :: rest2 =>
        if !(ishex h1 && ishex h2) then false
        else if mode = .encodeHost ∧ unhex h1 < 8 ∧ [c, h1, h2] ≠ "%25".toList then false
        else if mode = .encodeZone ∧ [c, h1, h2] ≠ "%25".toList
            ∧ unhex h1 * 16 + unhex h2 ≠ ' '.toNat
            ∧ shouldEscapeHost (unhex h1 * 16 + unhex h2) = true then false
        else unescapeOk mode rest2
      | _ => false
    else if (mode = .encodeHost ∨ mode = .encodeZone) ∧ c.toNat < 0x80
        ∧ shouldEscapeHost c.toNat = true then false
    else unescapeOk mode rest

/-- Go `validOptionalPort`: empty, or a colon followed by digits. -/
def validOptionalPort (port : GoString) : Bool :=
  match port with
  | [] => true
  | c :: digits => decide (c = ':') && digits.all isDigit

/-- Go `validUserinfo`. -/
def validUserinfo (s : GoString) : Bool :=
  s.all (fun r => isLetter r || isDigit r ||
    decide (r ∈ ['-', '.', '_', ':', '~', '!', '$', '&', Char.ofNat 39, '(', ')', '*', '+',
      ',', ';', '=', '%', '@']))

/-- Go `strings.Index(s, substr)` from byte `i` on; `none` is `-1`. -/
def indexFrom (substr : GoString) : GoString → Nat → Option Nat
  | [], i => if substr = [] then some i else none
  | c :: cs, i =>
    if (c :: cs).take substr.length = substr then some i else indexFrom substr cs (i + 1)

/-- Whether Go `parseHost` returns no error. -/
def parseHostOk (host : GoString) : Bool :=
  if host.head? = some '[' then
    if LastIndex host ']' < 0 then false
    else if !validOptionalPort (host.drop (LastIndex host ']' + 1).toNat) then false
    else
      match indexFrom "%25".toList (host.take (LastIndex host ']').toNat) 0 with
      | some zone =>
        unescapeOk .encodeHost (host.take zone)
          && unescapeOk .encodeZone ((host.take (LastIndex host ']').toNat).drop zone)
          && unescapeOk .encodeHost (host.drop (LastIndex host ']').toNat)
      | none => unescapeOk .encodeHost host
  else if LastIndex host ':' ≠ -1 then
    if !validOptionalPort (host.drop (LastIndex host ':').toNat) then false
    else unescapeOk .encodeHost host
  else unescapeOk .encodeHost host

/-- Whether Go `parseAuthority` returns no error. -/
def parseAuthorityOk (authority : GoString) : Bool :=
  if LastIndex authority '@' < 0 then parseHostOk authority
  else
    let userinfo := authority.take (LastIndex authority '@').toNat
    parseHostOk (authority.drop (LastIndex authority '@' + 1).toNat)
      && validUserinfo userinfo
      && (if ':' ∈ userinfo then
            unescapeOk .encodeUserPassword (userinfo.takeWhile (fun c => c ≠ ':'))
              && unescapeOk .encodeUserPassword ((userinfo.dropWhile (fun c => c ≠ ':')).drop 1)
          else unescapeOk .encodeUserPassword userinfo)

/-- Whether Go `url.ParseRequestURI(rawURL)` returns no error. It follows `parse(rawURL, true)`
of `net/url`: no control byte, not empty; then `*`, or a scheme followed by anything that
does not begin with `/`, or an absolute path, after a scheme with a well-formed authority when
the path begins with `//`, and with well-formed escapes; the query is not looked at. -/
def ParseRequestURI (rawURL : GoString) : Bool :=
  if stringContainsCTLByte rawURL then false
  else if rawURL = [] then false
  else if rawURL = ['*'] then true
  else
    match getScheme rawURL with
    | none => false
    | some (scheme, rest0) =>
      let rest := rest0.takeWhile (fun c => c ≠ '?')
      if rest.head? ≠ some '/' then decide (scheme ≠ [])
      else if scheme ≠ [] ∧ rest.take 2 = ['/', '/'] then
        let authority := (rest.drop 2).takeWhile (fun c => c ≠ '/')
        let path := (rest.drop 2).dropWhile (fun c => c ≠ '/')
        parseAuthorityOk authority && unescapeOk .encodePath path
      else unescapeOk .encodePath rest

/-! ## `dsclient.go`: the request builder -/

/-- The `dsClient` struct. Its `auth` field points back to the `authentication` that owns it
and its `client` field is the HTTP transport; both live in `World` and `Env`. -/
structure dsClient where
  agent : GoString
  baseUrl : GoString
  baseParams : Option Values

/-- One iteration of the loop `for k, v := range c.baseParams` in `buildUrl`:
`if value := params.Get(k); value == "" { params.Set(k, v[0]) }`. -/
def mergeStep (params : Values) (kv : Sigma (fun _ : GoString => List GoString)) :
    Except Panic Values :=
  if params.Get kv.1 = [] then
    match kv.2 with
    | [] => .error .indexOutOfRange
    | v0 :: _ => .ok (params.Set kv.1 v0)
  else .ok params

/-- The loop `for k, v := range c.baseParams` over the entries of the default map. -/
def mergeLoop : List (Sigma (fun _ : GoString => List GoString)) → Values → Except Panic Values
  | [], params => .ok params
  | kv :: rest, params =>
    match mergeStep params kv with
    | .error p => .error p
    | .ok params1 => mergeLoop rest params1

/-- Lines 94-102 of `buildUrl`: the parameter set the URL is built from. -/
def mergeParams (baseParams params : Option Values) : Except Panic (Option Values) :=
  match params with
  | some p =>
    match baseParams with
    | none => .ok (some p)
    | some d =>
      match mergeLoop d.entries p with
      | .error e => .error e
      | .ok m => .ok (some m)
  | none => .ok baseParams

/-- Body of the loop over `ids` in `buildUrl`:
`if strings.LastIndex(id, "/") != -1 { ids[i] = id[strings.LastIndex(id, "/")+1:] }`. -/
def normalizeId (id : GoString) : GoString :=
  if LastIndex id '/' ≠ -1 then id.drop (LastIndex id '/' + 1).toNat else id

/-- Go `dsClient.buildUrl`. `ids = none` is the nil slice, `params = none` the nil map. -/
def buildUrl (c : dsClient) (path : GoString) (params : Option Values)
    (ids : Option (List GoString)) : Except Panic GoString :=
  match mergeParams c.baseParams params with
  | .error e => .error e
  | .ok merged =>
    match ids with
    | some l =>
      .ok (c.baseUrl ++ path ++ ['/'] ++ Join (l.map normalizeId) [','] ++ ['?'] ++ Encode merged)
    | none => .ok (c.baseUrl ++ path ++ ['?'] ++ Encode merged)

/-- Builds a `url.Values` by successive `Set` calls on an empty map. -/
def mkValues (kvs : List (GoString × GoString)) : Values :=
  kvs.foldl (fun v kv => v.Set kv.1 kv.2) ∅

/-- The client of `TestBuildUrl`. -/
def testClient : dsClient :=
  { agent := "Test".toList, baseUrl := "http://mpx.theplatform.com".toList, baseParams := none }

/-- The parameters of `TestBuildUrl`, set in the order schema, form. -/
def testParams : Values :=
  mkValues [("schema".toList, "1.0".toList), ("form".toList, "json".toList)]

/-! ## `encoding/json` -/

/-- A JSON text, parsed. -/
inductive JSON where
  | null
  | bool (b : Bool)
  /-- A number, within the range of `float64`. -/
  | num (q : ℚ)
  | str (s : GoString)
  | arr (l : List JSON)
  | obj (l : List (GoString × JSON))

/-- A Go value of type `interface{}`, by dynamic type. A `map` carries its bindings in
insertion order; the last binding of a key is the current one. -/
inductive GoVal where
  | nil
  | bool (b : Bool)
  | int (n : Int)
  | float64 (q : ℚ)
  | string (s : GoString)
  | slice (l : List GoVal)
  | map (l : List (GoString × GoVal))

/-- Go `map[string]interface{}`. -/
abbrev GoMap := List (GoString × GoVal)

mutual
/-- What `json.Unmarshal` stores into an `interface{}`: `nil`, `bool`, `float64` for every
number, `string`, `[]interface{}` and `map[string]interface{}`. -/
def decode : JSON → GoVal
  | .null => .nil
  | .bool b => .bool b
  | .num q => .float64 q
  | .str s => .string s
  | .arr l => .slice (decodeList l)
  | .obj l => .map (decodeFields l)
/-- Decoding of the elements of a JSON array. -/
def decodeList : List JSON → List GoVal
  | [] => []
  | x :: xs => decode x :: decodeList xs
/-- Decoding of the members of a JSON object, in the order of the text. -/
def decodeFields : List (GoString × JSON) → List (GoString × GoVal)
  | [] => []
  | (k, v) :: xs => (k, decode v) :: decodeFields xs
end

/-- Go map lookup `v, ok := m[k]`: the last binding of `k`. -/
def mapIndex : GoMap → GoString → Option GoVal
  | [], _ => none
  | (k1, v) :: rest, k =>
    match mapIndex rest k with
    | some w => some w
    | none => if k1 = k then some v else none

/-- Go map index expression `m[k]`: the zero value `nil` when the key is absent. -/
def index (m : GoMap) (k : GoString) : GoVal := (mapIndex m k).getD .nil

/-- Go type assertion `x.(string)`; `none` is the run-time panic. -/
def assertString : GoVal → Option GoString
  | .string s => some s
  | _ => none

/-- Go type assertion `x.(map[string]interface{})`; `none` is the run-time panic. -/
def assertMap : GoVal → Option GoMap
  | .map m => some m
  | _ => none

/-- Go type assertion `x.(int)`; `none` is the run-time panic. -/
def assertInt : GoVal → Option Int
  | .int n => some n
  | _ => none

/-- Go `json.Unmarshal(body, &dat)` for a nil `dat map[string]interface{}`. The body is
`none` when the bytes are not a JSON text. The text `null` leaves `dat` nil, which reads like
the empty map; every text other than an object or `null` is an error. -/
def Unmarshal : Option JSON → Except Error GoMap
  | some (.obj l) => .ok (decodeFields l)
  | some .null => .ok []
  | _ => .error .json

/-! ## `net/http` and the environment -/

/-- An `http.Request` as the program builds it. -/
structure Request where
  method : GoString
  url : GoString
  header : List (GoString × GoString)
  basicAuth : Option (GoString × GoString)

/-- The `http.Client` a request goes through. -/
inductive Via where
  /-- Field `authentication.idmClient`. -/
  | idmClient
  /-- Field `dsClient.client`. -/
  | dsClient
  deriving DecidableEq

/-- Result `(resp, err)` of `http.Client.Do`. -/
inductive DoResult where
  /-- `resp != nil`, `err == nil`; the body is `none` when its bytes are not a JSON text. -/
  | response (body : Option JSON)
  /-- `resp == nil`, `err != nil`: the transport failed. -/
  | failure
  /-- `resp != nil`, `err != nil`: the redirect policy failed; the body is already closed. -/
  | failureWithResponse

/-- The collaborators of the program. -/
structure Env where
  /-- Go `url.Parse`: `none` on error, else the scheme of the URL. -/
  Parse : GoString → Option GoString
  /-- Go `http.Client.Do`, given the requests sent so far. -/
  Do : List (Via × Request) → Via → Request → DoResult

/-- Go `http.NewRequest(method, url, nil)` for a valid method: fails when `url.Parse` does. -/
def NewRequest (env : Env) (method url : GoString) : Except Error Request :=
  match env.Parse url with
  | none => .error (.url url)
  | some _ => .ok { method := method, url := url, header := [], basicAuth := none }

/-- Go `req.Header.Add(key, value)`. -/
def Request.addHeader (r : Request) (key value : GoString) : Request :=
  { r with header := r.header ++ [(key, value)] }

/-- Go `req.SetBasicAuth(username, password)`. -/
def Request.SetBasicAuth (r : Request) (username password : GoString) : Request :=
  { r with basicAuth := some (username, password) }

/-! ## `authclient.go`: the session manager -/

/-- The `AuthConfig` struct. -/
structure AuthConfig where
  User : GoString
  Password : GoString
  Acct : GoString
  Access : GoString
  Idm : GoString

/-- The `authentication` struct. `registry = none` is the nil map, `accessClient = none` the
nil interface; the `auth` field of the access client is this very struct. -/
structure authentication where
  token : GoString
  idm : GoString
  user : GoString
  pass : GoString
  acct : GoString
  accessClient : Option dsClient
  registry : Option GoMap

/-- The state a method runs in: the session and the requests handed to `Do` so far. -/
structure World where
  auth : authentication
  sent : List (Via × Request)

/-- How a method call ends: it returns a value, or it panics; either way in a new state. -/
inductive Outcome (α : Type) where
  | ret (a : α) (w : World)
  | panic (p : Panic) (w : World)

/-- The request `Signin` builds, when `http.NewRequest` succeeds. -/
def signinRequest (env : Env) (t : authentication) : Except Error Request :=
  let params := (((∅ : Values).Set "schema".toList "1.0".toList).Set "form".toList "json".toList)
  let reqUrl := t.idm ++ SignInPath ++ ['?'] ++ params.Encode
  match NewRequest env "GET".toList reqUrl with
  | .error e => .error e
  | .ok req =>
    .ok (((req.addHeader "User-Agent".toList AuthAgent).addHeader
      "Content-Type".toList "application/json".toList).SetBasicAuth t.user t.pass)

/-- Go `authentication.Signin`. -/
def Signin (env : Env) (w : World) : Outcome Unit :=
  if w.auth.token ≠ [] then .ret () w
  else
    match signinRequest env w.auth with
    | .error _ => .panic .nilDeref w
    | .ok req =>
      let w1 : World := { w with sent := w.sent ++ [(Via.idmClient, req)] }
      match env.Do w.sent Via.idmClient req with
      | .failure => .panic .nilDeref w1
      | .failureWithResponse => .ret () w1
      | .response body =>
        match Unmarshal body with
        | .error _ => .ret () w1
        | .ok dat =>
          if (mapIndex dat "isException".toList).isSome then
            match assertString (index dat "description".toList) with
            | none => .panic .typeAssert w1
            | some _ => .ret () w1
          else
            match assertMap (index dat "signInResponse".toList) with
            | none => .panic .typeAssert w1
            | some m =>
              match assertString (index m "token".toList) with
              | none => .panic .typeAssert w1
              | some tok => .ret () { w1 with auth := { w1.auth with token := tok } }

/-- The request `Signout` builds, when `http.NewRequest` succeeds. -/
def signoutRequest (env : Env) (t : authentication) : Except Error Request :=
  let params := ((((∅ : Values).Set "schema".toList "1.0".toList).Set
    "form".toList "json".toList).Set "_token".toList t.token)
  let reqUrl := t.idm ++ SignOutPath ++ ['?'] ++ params.Encode
  match NewRequest env "GET".toList reqUrl with
  | .error e => .error e
  | .ok req =>
    .ok ((req.addHeader "User-Agent".toList AuthAgent).addHeader
      "Content-Type".toList "application/json".toList)

/-- Go `authentication.Signout`. -/
def Signout (env : Env) (w : World) : Outcome Unit :=
  if w.auth.token = [] then .ret () w
  else
    match signoutRequest env w.auth with
    | .error _ => .panic .nilDeref w
    | .ok req =>
      let w1 : World := { w with sent := w.sent ++ [(Via.idmClient, req)] }
      match env.Do w.sent Via.idmClient req with
      | .failure => .panic .nilDeref w1
      | _ => .ret () { w1 with auth := { w1.auth with token := [], registry := none } }

/-- Go `authentication.Token`. -/
def Token (env : Env) (w : World) : Outcome GoString :=
  if w.auth.token = [] then
    match Signin env w with
    | .ret _ w1 => .ret w1.auth.token w1
    | .panic p w1 => .panic p w1
  else .ret w.auth.token w

/-- Go `authentication.Account`. -/
def Account (t : authentication) : GoString := t.acct

/-! ## `dsclient.go`: the data service client -/

/-- Go `dsClient.buildRequest`, with `c.auth` the session of the world. -/
def buildRequest (c : dsClient) (env : Env) (w : World) (reqUrl : GoString) :
    Outcome (Except Error Request) :=
  match NewRequest env "GET".toList reqUrl with
  | .error e => .ret (.error e) w
  | .ok req =>
    match Token env w with
    | .panic p w1 => .panic p w1
    | .ret tok w1 =>
      .ret (.ok (((req.addHeader "User-Agent".toList c.agent).addHeader
        "Content-Type".toList "application/json".toList).SetBasicAuth (Account w.auth) tok)) w1

/-- Go `dsClient.GetJSON`. -/
def GetJSON (c : dsClient) (env : Env) (w : World) (path : GoString) (params : Option Values)
    (ids : Option (List GoString)) : Outcome (Except Error GoMap) :=
  match buildUrl c path params ids with
  | .error p => .panic p w
  | .ok reqUrl =>
    match buildRequest c env w reqUrl with
    | .panic p w1 => .panic p w1
    | .ret (.error e) w1 => .ret (.error e) w1
    | .ret (.ok req) w1 =>
      let w2 : World := { w1 with sent := w1.sent ++ [(Via.dsClient, req)] }
      match env.Do w1.sent Via.dsClient req with
      | .failure => .panic .nilDeref w2
      | .failureWithResponse => .ret (.error .json) w2
      | .response body =>
        match Unmarshal body with
        | .error e => .ret (.error e) w2
        | .ok dat =>
          if (mapIndex dat "isException".toList).isSome then
            match assertString (index dat "description".toList) with
            | none => .panic .typeAssert w2
            | some d => .panic (.explicit d) w2
          else .ret (.ok dat) w2

/-- Go `dsClient.GetCount`. -/
def GetCount (c : dsClient) (env : Env) (w : World) (path : GoString) (params : Option Values)
    (ids : Option (List GoString)) : Outcome (Except Error Int) :=
  match params with
  | none => .panic .nilMapWrite w
  | some p =>
    let p1 := (p.Set "entries".toList "false".toList).Set "count".toList "true".toList
    match GetJSON c env w path (some p1) ids with
    | .panic e w1 => .panic e w1
    | .ret (.error e) w1 => .ret (.error e) w1
    | .ret (.ok dat) w1 =>
      match assertInt (index dat "totalResults".toList) with
      | none => .panic .typeAssert w1
      | some n => .ret (.ok n) w1

/-- Go `authentication.ResolveService`. -/
def ResolveService (env : Env) (w : World) (service : GoString) : Outcome GoString :=
  match w.auth.registry with
  | some reg =>
    match assertString (index reg service) with
    | none => .panic .typeAssert w
    | some u => .ret u w
  | none =>
    match w.auth.accessClient with
    | none => .panic .nilDeref w
    | some c =>
      match GetJSON c env w RegistryPath none none with
      | .panic p w1 => .panic p w1
      | .ret (.error _) w1 => .ret [] w1
      | .ret (.ok regResp) w1 =>
        match assertMap (index regResp "resolveDomainResponse".toList) with
        | none => .panic .typeAssert w1
        | some reg =>
          let w2 : World := { w1 with auth := { w1.auth with registry := some reg } }
          match assertString (index reg service) with
          | none => .panic .typeAssert w2
          | some u => .ret u w2

/-- Modelled from the spec: `StringParamDefault` is called by `NewAuthClient` and tested in
`lib_test.go`, its body is not among the sources. "Defaults apply when unspecified": an
unspecified (empty) value yields the default, a specified one is kept. -/
def StringParamDefault (value dflt : GoString) : GoString :=
  if value = [] then dflt else value

/-- How `NewAuthClient` ends. -/
inductive Built where
  /-- It returns `(a, nil)`. -/
  | client (a : authentication)
  /-- It returns `(nil, err)`. -/
  | err (e : Error)
  /-- It panics. -/
  | panic (p : Panic)
  /-- `log.Fatal` in `NewDSClient` ends the process. -/
  | fatal

/-- The validation loop of `NewAuthClient`: the first URL `url.ParseRequestURI` rejects. -/
def firstBadUrl : List GoString → Option GoString
  | [] => none
  | u :: rest => if ParseRequestURI u then firstBadUrl rest else some u

/-- Go `NewDSClient`; `none` is `log.Fatal`. -/
def NewDSClient (env : Env) (baseUrl agent : GoString) (baseParams : Option Values) :
    Option dsClient :=
  match env.Parse baseUrl with
  | none => none
  | some _ => some { agent := agent, baseUrl := baseUrl, baseParams := baseParams }

/-- Go `NewAuthClient`. -/
def NewAuthClient (env : Env) (conf : AuthConfig) : Built :=
  let access := StringParamDefault conf.Access DefaultAccess
  let idm := StringParamDefault conf.Idm DefaultIdm
  let acct := StringParamDefault conf.Acct DefaultAcct
  match firstBadUrl [access, idm, acct] with
  | some u => .err (.url u)
  | none =>
    if conf.User = [] then .err (.badString "Missing parameter".toList "User".toList)
    else if conf.Password = [] then
      .err (.badString "Missing parameter".toList "Password".toList)
    else
      let params := (((∅ : Values).Set "schema".toList "1.1".toList).Set
        "form".toList "json".toList).Set "_accountId".toList acct
      match env.Parse idm with
      | none => .panic .nilDeref
      | some _ =>
        match NewDSClient env access AuthAgent (some params) with
        | none => .fatal
        | some ds =>
          .client { token := [], idm := idm, user := conf.User, pass := conf.Password,
                    acct := acct, accessClient := some ds, registry := none }

/-! ## Observations on outcomes -/

/-- The panic a call ended with, if it did not return. -/
def Outcome.panicked {α : Type} : Outcome α → Option Panic
  | .ret _ _ => none
  | .panic p _ => some p

/-- The value a call returned, if it returned. -/
def Outcome.value {α : Type} : Outcome α → Option α
  | .ret a _ => some a
  | .panic _ _ => none

/-- The state a call ended in. -/
def Outcome.world {α : Type} : Outcome α → World
  | .ret _ w => w
  | .panic _ w => w

/-- Number of requests sent through the data service client, i.e. of `GetJSON` fetches. -/
def fetches (sent : List (Via × Request)) : Nat :=
  (sent.filter (fun r => decide (r.1 = Via.dsClient))).length

/-- Number of requests sent through the identity client. -/
def idmCalls (sent : List (Via × Request)) : Nat :=
  (sent.filter (fun r => decide (r.1 = Via.idmClient))).length

/-! ## Concrete environments and states, taken from the tests -/

/-- Stand-in for `url.Parse` on the URLs of the examples: text starting with `http://` or
`https://` parses and has that scheme, other text is rejected. -/
def exampleParse (u : GoString) : Option GoString :=
  if u.take 7 = "http://".toList then some "http".toList
  else if u.take 8 = "https://".toList then some "https".toList
  else none

/-- An environment around a given transport. -/
def exampleEnv (transport : List (Via × Request) → Via → Request → DoResult) : Env :=
  { Parse := exampleParse, Do := transport }

/-- The token of the tests. -/
def testToken : GoString := "P9ahM3yCzEqIFWMww2qOAXC0wPCW0DBw".toList

/-- The success envelope of the sign-in endpoint, `signInResponse.token = tok`. -/
def signInEnvelope (tok : GoString) : JSON :=
  .obj [("signInResponse".toList, .obj [("token".toList, .str tok)])]

/-- The exception envelope of `TestSignin`. -/
def exceptionEnvelope : JSON :=
  .obj [("isException".toList, .bool true),
        ("title".toList, .str "AuthenticationException".toList),
        ("description".toList, .str "Could not authenticate user".toList)]

/-- An exception envelope without a description. -/
def bareExceptionEnvelope : JSON := .obj [("isException".toList, .bool true)]

/-- The registry envelope of `TestResolveService`. -/
def registryEnvelope : JSON :=
  .obj [("resolveDomainResponse".toList,
    .obj [("Media Data Service".toList, .str "http://data.media.theplatform.com/media".toList)])]

/-- A count envelope, `totalResults = 5`. -/
def countEnvelope : JSON := .obj [("totalResults".toList, .num 5)]

/-- A transport on which every request fails without a response (connection refused). -/
def refusedTransport : List (Via × Request) → Via → Request → DoResult :=
  fun _ _ _ => .failure

/-- A transport that answers every request with the same body. -/
def constTransport (body : JSON) : List (Via × Request) → Via → Request → DoResult :=
  fun _ _ _ => .response (some body)

/-- The server of `TestSignin`: user `bob` gets a token, everybody else the exception. -/
def signinServer : List (Via × Request) → Via → Request → DoResult :=
  fun _ _ req =>
    match req.basicAuth with
    | some (user, _) =>
      if user = "bob".toList then .response (some (signInEnvelope testToken))
      else .response (some exceptionEnvelope)
    | none => .response (some exceptionEnvelope)

/-- A server that hands out a different token on every sign-in: the token is `t` followed by
as many `x` as requests were sent before. -/
def freshTokenServer : List (Via × Request) → Via → Request → DoResult :=
  fun sent _ _ => .response (some (signInEnvelope ('t' :: List.replicate sent.length 'x')))

/-- A platform whose identity endpoint rejects the first sign-in and accepts the later ones,
and whose registry endpoint answers every request, as the server of `TestResolveService`. -/
def retryPlatform : List (Via × Request) → Via → Request → DoResult :=
  fun sent via _ =>
    match via with
    | Via.dsClient => .response (some registryEnvelope)
    | Via.idmClient =>
      if idmCalls sent = 0 then .response (some exceptionEnvelope)
      else .response (some (signInEnvelope testToken))

/-- The signed-out session of `TestSignin`. -/
def signedOutBob : World :=
  { auth := { token := [], idm := "http://127.0.0.1:8080".toList, user := "bob".toList,
              pass := "test".toList, acct := [], accessClient := none, registry := none },
    sent := [] }

/-- The signed-in session of `TestSignout`. -/
def signedInBob : World :=
  { signedOutBob with auth := { signedOutBob.auth with token := testToken } }

/-- The session of `TestSignout` with a registry cache that has been filled. -/
def signedInCached : World :=
  { signedInBob with auth := { signedInBob.auth with registry := some [] } }

/-- The data service client of `TestResolveService`. -/
def registryClient : dsClient :=
  { agent := AuthAgent, baseUrl := "http://127.0.0.1:8080".toList,
    baseParams := some (mkValues [("schema".toList, "1.1".toList), ("form".toList, "json".toList),
      ("_accountId".toList, DefaultAcct)]) }

/-- The session of `TestResolveService`, signed in, with an empty registry cache. -/
def resolverBob : World :=
  { auth := { token := testToken, idm := "http://127.0.0.1:8080".toList, user := "bob".toList,
              pass := "test".toList, acct := DefaultAcct, accessClient := some registryClient,
              registry := none },
    sent := [] }

/-- The minimal configuration of `TestNewAuthClient`. -/
def bobConfig : AuthConfig :=
  { User := "bob".toList, Password := "test".toList, Acct := [], Access := [], Idm := [] }


/-! ## Notions of the specification -/

/-- What an absolute URL begins with (RFC 3986, `absolute-URI = scheme ":" hier-part`): a
scheme, that is a letter followed by letters, digits, `+`, `-` or `.`, and a colon. -/
def beginsWithScheme (u : GoString) : Bool :=
  match u with
  | [] => false
  | c :: cs => isLetter c && (cs.dropWhile isSchemeChar).head? == some ':'

/-- The identifier normalisation in the words of the specification: an id without `/` is
kept, an id containing `/` is replaced by what follows its last `/`. -/
def IsTrailingId (id n : GoString) : Prop :=
  ('/' ∉ id → n = id) ∧
    (∀ pre suf : GoString, id = pre ++ '/' :: suf → '/' ∉ suf → n = suf)

/-- Every key of the default map has at least one value, as in every map filled by `Set`;
the loop of `buildUrl` reads `v[0]`. -/
def hasValues : Option Values → Bool
  | none => true
  | some d => d.entries.all (fun kv => !kv.2.isEmpty)

/-- The value `Get` reads for a key in the merged parameter set of `buildUrl`. -/
def mergedValue (baseParams params : Option Values) (k : GoString) : Option GoString :=
  match mergeParams baseParams params with
  | .ok (some m) => some (m.Get k)
  | _ => none

/-- What the merged map binds a key to, given the call-specific map `p` and the entries `l`
of the default map. -/
def mergedLookup (l : List (Sigma (fun _ : GoString => List GoString))) (p : Values)
    (k : GoString) : Option (List GoString) :=
  if p.Get k = [] then
    match l.dlookup k with
    | some vs => some [vs.headD []]
    | none => p.lookup k
  else p.lookup k

/-- Two possibly nil maps with the same bindings, whatever the order they were filled in. -/
def sameMapping : Option Values → Option Values → Prop
  | none, none => True
  | some a, some b => ∀ k, a.lookup k = b.lookup k
  | _, _ => False

/-- A default map with the single entry `form=json`. -/
def formJson : Values := mkValues [("form".toList, "json".toList)]

/-- A call-specific map that supplies `form` explicitly, with the empty string. -/
def formEmpty : Values := mkValues [("form".toList, [])]

/-- The parameters of `TestBuildUrl`, set in the order form, schema. -/
def testParamsSwapped : Values :=
  mkValues [("form".toList, "json".toList), ("schema".toList, "1.0".toList)]

/-- The bare ids of `TestBuildUrl`. -/
def testIds : List GoString := ["123".toList, "456".toList]

/-- The full resource URIs of `TestBuildUrl`. -/
def testUris : List GoString :=
  ["http://mpx.theplatform.com/data/Media/123".toList,
   "http://mpx.theplatform.com/data/Media/456".toList]

/-- A configuration without password, as in `TestNewAuthClient`. -/
def noPasswordConfig : AuthConfig :=
  { User := "bob".toList, Password := [], Acct := [], Access := [], Idm := [] }

/-- The access client `NewAuthClient` builds from `bobConfig`. -/
def constructedClient : dsClient :=
  { agent := AuthAgent, baseUrl := DefaultAccess,
    baseParams := some (mkValues [("schema".toList, "1.1".toList),
      ("form".toList, "json".toList), ("_accountId".toList, DefaultAcct)]) }

/-- The session `NewAuthClient` builds from `bobConfig`. -/
def constructedBob : authentication :=
  { token := [], idm := DefaultIdm, user := "bob".toList, pass := "test".toList,
    acct := DefaultAcct, accessClient := some constructedClient, registry := none }

/-- The service name of `TestResolveService`. -/
def mediaService : GoString := "Media Data Service".toList

/-- The URL registered for it. -/
def mediaUrl : GoString := "http://data.media.theplatform.com/media".toList

/-- The environment of the platform that rejects the first sign-in. -/
def retryEnv : Env := exampleEnv retryPlatform

/-- The client `NewAuthClient` builds from `bobConfig`, before any call. -/
def boundary0 : World := { auth := constructedBob, sent := [] }

/-- The state after `ResolveService` on `boundary0`. -/
def boundary1 : World := (ResolveService retryEnv boundary0 mediaService).world

/-- The state after `Signout` on `boundary1`. -/
def boundary2 : World := (Signout retryEnv boundary1).world

/-- The state after `Signin` on `boundary2`. -/
def boundary3 : World := (Signin retryEnv boundary2).world

/-- The environment of a platform that accepts user `bob` and serves the registry. -/
def signedEnv : Env :=
  exampleEnv (fun sent via req =>
    match via with
    | Via.dsClient => .response (some registryEnvelope)
    | Via.idmClient => signinServer sent via req)

/-- The state after `ResolveService` on the session of `TestResolveService`. -/
def session1 : World := (ResolveService signedEnv resolverBob mediaService).world

/-- The state after `Signout` on `session1`. -/
def session2 : World := (Signout signedEnv session1).world

/-- The state after `Signin` on `session2`. -/
def session3 : World := (Signin signedEnv session2).world

/-- The URL of the count query on `/data/Media` through `registryClient`. -/
def countUrl : GoString :=
  "http://127.0.0.1:8080/data/Media".toList
    ++ "?_accountId=http%3A%2F%2Faccess.auth.theplatform.com%2Fdata%2FAccount%2F1".toList
    ++ "&count=true&entries=false&form=json&schema=1.1".toList

/-- A configuration whose account is a bare absolute path. -/
def pathAcctConfig : AuthConfig :=
  { User := "bob".toList, Password := "test".toList, Acct := "/data/Account/1".toList,
    Access := [], Idm := [] }

/-- The access client `NewAuthClient` builds from `pathAcctConfig`. -/
def pathAcctClient : dsClient :=
  { agent := AuthAgent, baseUrl := DefaultAccess,
    baseParams := some (mkValues [("schema".toList, "1.1".toList),
      ("form".toList, "json".toList), ("_accountId".toList, "/data/Account/1".toList)]) }

/-- The session `NewAuthClient` builds from `pathAcctConfig`. -/
def pathAcctBob : authentication :=
  { token := [], idm := DefaultIdm, user := "bob".toList, pass := "test".toList,
    acct := "/data/Account/1".toList, accessClient := some pathAcctClient, registry := none }

/-- The configuration of `TestNewAuthClient` whose account is no URL. -/
def ingestAcctConfig : AuthConfig :=
  { User := "bob".toList, Password := "test".toList, Acct := "VMS POC VOD Ingest".toList,
    Access := [], Idm := [] }

/-! ## Lemmas on strings -/

theorem lastIndexFrom_of_not_mem (sep : Char) (s : GoString) (i : Nat) (acc : Int)
    (h : sep ∉ s) : lastIndexFrom sep s i acc = acc := by
  induction s generalizing i acc with
  | nil => rfl
  | cons x xs ih =>
    have hx : x ≠ sep := fun e => h (by simp [e])
    have hxs : sep ∉ xs := fun e => h (by simp [e])
    simp [lastIndexFrom, hx, ih _ _ hxs]

theorem lastIndexFrom_append (sep : Char) (pre suf : GoString) (i : Nat) (acc : Int)
    (h : sep ∉ suf) :
    lastIndexFrom sep (pre ++ sep :: suf) i acc = ((i + pre.length : Nat) : Int) := by
  induction pre generalizing i acc with
  | nil => simp [lastIndexFrom, lastIndexFrom_of_not_mem sep suf _ _ h]
  | cons x xs ih =>
    show lastIndexFrom sep (xs ++ sep :: suf) (i + 1) (if x = sep then (i : Int) else acc) = _
    rw [ih]
    simp only [List.length_cons]
    congr 1
    omega

theorem normalizeId_of_not_mem (id : GoString) (h : '/' ∉ id) : normalizeId id = id := by
  simp [normalizeId, LastIndex, lastIndexFrom_of_not_mem _ _ _ _ h]

theorem normalizeId_append (pre suf : GoString) (h : '/' ∉ suf) :
    normalizeId (pre ++ '/' :: suf) = suf := by
  have e : LastIndex (pre ++ '/' :: suf) '/' = (pre.length : Int) := by
    simp [LastIndex, lastIndexFrom_append _ _ _ _ _ h]
  have ne : (pre.length : Int) ≠ -1 := by omega
  have e2 : ((pre.length : Int) + 1).toNat = pre.length + 1 := by omega
  simp only [normalizeId, e, ne, ne_eq, not_false_eq_true, if_true, e2]
  rw [List.drop_append_eq_append_drop]
  simp

theorem normalizeId_isTrailingId (id : GoString) : IsTrailingId id (normalizeId id) := by
  refine ⟨normalizeId_of_not_mem id, ?_⟩
  intro pre suf e h
  rw [e, normalizeId_append pre suf h]

theorem forall₂_normalizeId (ids : List GoString) :
    List.Forall₂ IsTrailingId ids (ids.map normalizeId) := by
  induction ids with
  | nil => exact List.Forall₂.nil
  | cons x xs ih => exact List.Forall₂.cons (normalizeId_isTrailingId x) ih

theorem map_normalizeId_zipWith (pres ids : List GoString) (hlen : pres.length = ids.length)
    (hids : ∀ id ∈ ids, '/' ∉ id) (hpres : ∀ p ∈ pres, ∃ q : GoString, p = q ++ ['/']) :
    (List.zipWith (fun p id => p ++ id) pres ids).map normalizeId = ids.map normalizeId := by
  induction pres generalizing ids with
  | nil =>
    cases ids with
    | nil => rfl
    | cons _ _ => simp at hlen
  | cons p ps ih =>
    cases ids with
    | nil => simp at hlen
    | cons id rest =>
      obtain ⟨q, hq⟩ := hpres p (by simp)
      have hid : '/' ∉ id := hids id (by simp)
      have hrest := ih rest (by simpa using hlen) (fun x hx => hids x (by simp [hx]))
        (fun x hx => hpres x (by simp [hx]))
      simp only [List.zipWith_cons_cons, List.map_cons, hrest, List.cons.injEq, and_true]
      rw [hq, List.append_assoc, List.singleton_append, normalizeId_append q id hid,
        normalizeId_of_not_mem id hid]


/-! ## Parameter merging -/

theorem Get_eq_of_lookup_eq {p q : Values} {k : GoString} (h : p.lookup k = q.lookup k) :
    p.Get k = q.Get k := by
  simp [Values.Get, h]

theorem lookup_Set_self (p : Values) (k v : GoString) : (p.Set k v).lookup k = some [v] := by
  simp [Values.Set]

theorem lookup_Set_ne (p : Values) {k k1 : GoString} (v : GoString) (h : k ≠ k1) :
    (p.Set k1 v).lookup k = p.lookup k := by
  simp [Values.Set, AList.lookup_insert_ne h]

theorem mergedLookup_of_none {l : List (Sigma (fun _ : GoString => List GoString))}
    {q : Values} {k : GoString} (h : l.dlookup k = none) : mergedLookup l q k = q.lookup k := by
  unfold mergedLookup
  split <;> simp [h]

theorem mergeLoop_spec (l : List (Sigma (fun _ : GoString => List GoString)))
    (hl : l.NodupKeys) (hv : ∀ kv ∈ l, kv.2 ≠ []) (p : Values) :
    ∃ m, mergeLoop l p = .ok m ∧ ∀ k, m.lookup k = mergedLookup l p k := by
  induction l generalizing p with
  | nil => exact ⟨p, rfl, fun k => by simp [mergedLookup]⟩
  | cons kv rest ih =>
    obtain ⟨hk, hrest⟩ := List.nodupKeys_cons.1 hl
    have hv1 : kv.2 ≠ [] := hv kv (by simp)
    have hvr : ∀ x ∈ rest, x.2 ≠ [] := fun x hx => hv x (by simp [hx])
    obtain ⟨k0, vs0⟩ := kv
    cases vs0 with
    | nil => exact absurd rfl hv1
    | cons v0 vt =>
      by_cases hg : p.Get k0 = []
      · obtain ⟨m, hm, hlook⟩ := ih hrest hvr (p.Set k0 v0)
        refine ⟨m, by simp [mergeLoop, mergeStep, hg, hm], ?_⟩
        intro k
        rw [hlook k]
        by_cases hkk : k = k0
        · subst hkk
          have hn : rest.dlookup k = none := List.dlookup_eq_none.2 hk
          rw [mergedLookup_of_none hn, lookup_Set_self]
          unfold mergedLookup
          rw [if_pos hg, List.dlookup_cons_eq]
          rfl
        · have e1 := lookup_Set_ne p v0 hkk
          have e2 : List.dlookup k (⟨k0, v0 :: vt⟩ :: rest) = List.dlookup k rest :=
            List.dlookup_cons_ne _ _ (fun e => hkk e)
          simp only [mergedLookup, Get_eq_of_lookup_eq e1, e1, e2]
      · obtain ⟨m, hm, hlook⟩ := ih hrest hvr p
        refine ⟨m, by simp [mergeLoop, mergeStep, hg, hm], ?_⟩
        intro k
        rw [hlook k]
        by_cases hkk : k = k0
        · subst hkk
          have hn : rest.dlookup k = none := List.dlookup_eq_none.2 hk
          rw [mergedLookup_of_none hn]
          unfold mergedLookup
          rw [if_neg hg]
        · have e2 : List.dlookup k (⟨k0, v0 :: vt⟩ :: rest) = List.dlookup k rest :=
            List.dlookup_cons_ne _ _ (fun e => hkk e)
          simp only [mergedLookup, e2]

theorem hasValues_some {d : Values} (h : hasValues (some d) = true) :
    ∀ kv ∈ d.entries, kv.2 ≠ [] := by
  intro kv hkv e
  have := List.all_eq_true.1 h kv hkv
  simp [e] at this

theorem mergeParams_total (bp params : Option Values) (h : hasValues bp = true) :
    ∃ merged, mergeParams bp params = .ok merged := by
  cases params with
  | none => exact ⟨bp, rfl⟩
  | some p =>
    cases bp with
    | none => exact ⟨some p, rfl⟩
    | some d =>
      obtain ⟨m, hm, _⟩ := mergeLoop_spec d.entries d.nodupKeys (hasValues_some h) p
      exact ⟨some m, by simp [mergeParams, hm]⟩

theorem mem_of_Get_ne_nil {p : Values} {k : GoString} (h : p.Get k ≠ []) : k ∈ p := by
  rw [← AList.lookup_isSome]
  cases hl : p.lookup k with
  | none => simp [Values.Get, hl] at h
  | some _ => rfl

theorem mergeParams_spec (d p : Values) (hd : hasValues (some d) = true) :
    ∃ m, mergeParams (some d) (some p) = .ok (some m) ∧
      ∀ k, m.lookup k = mergedLookup d.entries p k := by
  obtain ⟨m, hm, hlook⟩ := mergeLoop_spec d.entries d.nodupKeys (hasValues_some hd) p
  exact ⟨m, by simp [mergeParams, hm], hlook⟩

theorem lookup_ne_nil_of_hasValues {d : Values} (hd : hasValues (some d) = true)
    {k : GoString} {vs : List GoString} (h : d.lookup k = some vs) : vs ≠ [] := by
  have hmem : (⟨k, vs⟩ : Sigma (fun _ : GoString => List GoString)) ∈ d.entries :=
    AList.mem_lookup_iff.1 h
  exact hasValues_some hd ⟨k, vs⟩ hmem

/-! ## The order of the keys in `Encode` -/

theorem strLe_refl (a : GoString) : strLe a a = true := by
  induction a with
  | nil => rfl
  | cons x xs ih => simp [strLe, ih]

theorem strLe_total (a b : GoString) : strLe a b = true ∨ strLe b a = true := by
  induction a generalizing b with
  | nil => exact Or.inl rfl
  | cons x xs ih =>
    cases b with
    | nil => exact Or.inr rfl
    | cons y ys =>
      rcases lt_trichotomy x y with h | h | h
      · left; simp [strLe, h]
      · subst h
        rcases ih ys with h1 | h1
        · left; simp [strLe, h1]
        · right; simp [strLe, h1]
      · right; simp [strLe, h]

theorem strLe_antisymm {a b : GoString} (h1 : strLe a b = true) (h2 : strLe b a = true) :
    a = b := by
  induction a generalizing b with
  | nil =>
    cases b with
    | nil => rfl
    | cons y ys => simp [strLe] at h2
  | cons x xs ih =>
    cases b with
    | nil => simp [strLe] at h1
    | cons y ys =>
      rcases lt_trichotomy x y with h | h | h
      · have hn : ¬ y < x := lt_asymm h
        simp [strLe, h, hn] at h2
      · subst h
        simp only [strLe, lt_irrefl, if_false] at h1 h2
        rw [ih h1 h2]
      · have hn : ¬ x < y := lt_asymm h
        simp [strLe, h, hn] at h1

theorem strLe_trans {a b c : GoString} (h1 : strLe a b = true) (h2 : strLe b c = true) :
    strLe a c = true := by
  induction a generalizing b c with
  | nil => rfl
  | cons x xs ih =>
    cases b with
    | nil => simp [strLe] at h1
    | cons y ys =>
      cases c with
      | nil => simp [strLe] at h2
      | cons z zs =>
        rcases lt_trichotomy x y with hxy | hxy | hxy
        · rcases lt_trichotomy y z with hyz | hyz | hyz
          · simp [strLe, lt_trans hxy hyz]
          · subst hyz; simp [strLe, hxy]
          · have hn : ¬ y < z := lt_asymm hyz
            simp [strLe, hyz, hn] at h2
        · subst hxy
          rcases lt_trichotomy x z with hyz | hyz | hyz
          · simp [strLe, hyz]
          · subst hyz
            simp only [strLe, lt_irrefl, if_false] at h1 h2 ⊢
            exact ih h1 h2
          · have hn : ¬ x < z := lt_asymm hyz
            simp [strLe, hyz, hn] at h2
        · have hn : ¬ x < y := lt_asymm hxy
          simp [strLe, hxy, hn] at h1

theorem sortedKeys_sorted (v : Values) :
    (sortedKeys v).Sorted (fun a b => strLe a b = true) := by
  haveI : IsTotal GoString (fun a b => strLe a b = true) := ⟨strLe_total⟩
  haveI : IsTrans GoString (fun a b => strLe a b = true) := ⟨fun _ _ _ => strLe_trans⟩
  exact List.sorted_insertionSort _ _

theorem sortedKeys_perm (v : Values) : (sortedKeys v).Perm v.keys :=
  List.perm_insertionSort _ _

theorem mem_sortedKeys (v : Values) (k : GoString) : k ∈ sortedKeys v ↔ k ∈ v := by
  rw [(sortedKeys_perm v).mem_iff, AList.mem_keys]

theorem sortedKeys_nodup (v : Values) : (sortedKeys v).Nodup :=
  (sortedKeys_perm v).nodup_iff.2 v.keys_nodup

theorem sortedKeys_congr {v1 v2 : Values} (h : ∀ k, v1.lookup k = v2.lookup k) :
    sortedKeys v1 = sortedKeys v2 := by
  haveI : IsAntisymm GoString (fun a b => strLe a b = true) := ⟨fun _ _ => strLe_antisymm⟩
  have hmem : ∀ k, k ∈ v1.keys ↔ k ∈ v2.keys := by
    intro k
    rw [← AList.mem_keys, ← AList.mem_keys, ← AList.lookup_isSome, ← AList.lookup_isSome,
      h k]
  have hperm : v1.keys.Perm v2.keys :=
    (List.perm_ext_iff_of_nodup v1.keys_nodup v2.keys_nodup).2 hmem
  exact List.eq_of_perm_of_sorted
    (((sortedKeys_perm v1).trans hperm).trans (sortedKeys_perm v2).symm)
    (sortedKeys_sorted v1) (sortedKeys_sorted v2)

theorem Encode_congr {v1 v2 : Values} (h : ∀ k, v1.lookup k = v2.lookup k) :
    v1.Encode = v2.Encode := by
  have hp : encodePairs v1 = encodePairs v2 := by
    funext k
    simp [encodePairs, h k]
  simp [Values.Encode, sortedKeys_congr h, hp]

theorem mergedLookup_congr {d1 d2 p1 p2 : Values} (hd : ∀ k, d1.lookup k = d2.lookup k)
    (hp : ∀ k, p1.lookup k = p2.lookup k) (k : GoString) :
    mergedLookup d1.entries p1 k = mergedLookup d2.entries p2 k := by
  have e : List.dlookup k d1.entries = List.dlookup k d2.entries := hd k
  simp only [mergedLookup, Get_eq_of_lookup_eq (hp k), hp k, e]

theorem Encode_mergeParams_congr {b1 b2 p1 p2 m1 m2 : Option Values}
    (hb : sameMapping b1 b2) (hp : sameMapping p1 p2) (h1 : hasValues b1 = true)
    (h2 : hasValues b2 = true) (e1 : mergeParams b1 p1 = .ok m1)
    (e2 : mergeParams b2 p2 = .ok m2) : Encode m1 = Encode m2 := by
  have key : sameMapping m1 m2 := by
    cases p1 with
    | none =>
      cases p2 with
      | none =>
        simp only [mergeParams, Except.ok.injEq] at e1 e2
        rw [← e1, ← e2]; exact hb
      | some q2 => exact absurd hp (by simp [sameMapping])
    | some q1 =>
      cases p2 with
      | none => exact absurd hp (by simp [sameMapping])
      | some q2 =>
        cases b1 with
        | none =>
          cases b2 with
          | none =>
            simp only [mergeParams, Except.ok.injEq] at e1 e2
            rw [← e1, ← e2]; exact hp
          | some d2 => exact absurd hb (by simp [sameMapping])
        | some d1 =>
          cases b2 with
          | none => exact absurd hb (by simp [sameMapping])
          | some d2 =>
            obtain ⟨n1, hn1, l1⟩ := mergeParams_spec d1 q1 h1
            obtain ⟨n2, hn2, l2⟩ := mergeParams_spec d2 q2 h2
            rw [hn1] at e1; rw [hn2] at e2
            simp only [Except.ok.injEq] at e1 e2
            rw [← e1, ← e2]
            intro k
            rw [l1 k, l2 k]
            exact mergedLookup_congr hb hp k
  cases m1 with
  | none =>
    cases m2 with
    | none => rfl
    | some _ => exact absurd key (by simp [sameMapping])
  | some v1 =>
    cases m2 with
    | none => exact absurd key (by simp [sameMapping])
    | some v2 => exact Encode_congr key

/-! ## The request builder: claims C5, C6, C7 -/

/-- C5, as stated, fails: the call-specific set supplies `form` explicitly with the empty
string, the default set has `form=json`, and the merged set carries `json` for `form`. -/
theorem mergeParams_default_replaces_empty_value :
    formEmpty.lookup "form".toList = some [[]] ∧
    mergedValue (some formJson) (some formEmpty) "form".toList = some "json".toList ∧
    "json".toList ≠ ([] : GoString) := by
  decide

/-- C5, amended: for every default set whose keys have a value and every call-specific set,
the merged set of `buildUrl` has exactly the keys of both sets; every key whose call-specific
value is not the empty string keeps its call-specific values, every call-specific key that is
no default key keeps its values, and every default key that is absent from the call-specific
set or has the empty string there carries the default's value. Without call-specific set the
merged set is the default set, without default set it is the call-specific set. -/
theorem mergeParams_keeps_nonempty_values (d p : Values) (hd : hasValues (some d) = true) :
    mergeParams (some d) none = .ok (some d) ∧
    mergeParams none (some p) = .ok (some p) ∧
    mergeParams none none = .ok none ∧
    ∃ m, mergeParams (some d) (some p) = .ok (some m) ∧
      (∀ k, k ∈ m ↔ k ∈ p ∨ k ∈ d) ∧
      (∀ k, p.Get k ≠ [] → m.lookup k = p.lookup k) ∧
      (∀ k, k ∉ d → m.lookup k = p.lookup k) ∧
      (∀ k, k ∈ d → p.Get k = [] → m.lookup k = some [d.Get k]) := by
  refine ⟨rfl, rfl, rfl, ?_⟩
  obtain ⟨m, hm, hlook⟩ := mergeParams_spec d p hd
  have hne : ∀ k, p.Get k ≠ [] → m.lookup k = p.lookup k := by
    intro k hk
    rw [hlook k]; unfold mergedLookup; rw [if_neg hk]
  have hnd : ∀ k, k ∉ d → m.lookup k = p.lookup k := by
    intro k hk
    have hn : List.dlookup k d.entries = none := AList.lookup_eq_none.2 hk
    rw [hlook k, mergedLookup_of_none hn]
  have hdef : ∀ k, k ∈ d → p.Get k = [] → m.lookup k = some [d.Get k] := by
    intro k hk hg
    obtain ⟨vs, hvs⟩ := Option.isSome_iff_exists.1 (AList.lookup_isSome.2 hk)
    have hvs1 : List.dlookup k d.entries = some vs := hvs
    have hnn := lookup_ne_nil_of_hasValues hd hvs
    rw [hlook k]; unfold mergedLookup; rw [if_pos hg, hvs1]
    cases vs with
    | nil => exact absurd rfl hnn
    | cons v0 vt => simp [Values.Get, hvs]
  refine ⟨m, hm, ?_, hne, hnd, hdef⟩
  intro k
  by_cases hg : p.Get k = []
  · by_cases hk : k ∈ d
    · have hmem : k ∈ m := by
        rw [← AList.lookup_isSome, hdef k hk hg]; rfl
      exact ⟨fun _ => Or.inr hk, fun _ => hmem⟩
    · rw [← AList.lookup_isSome, hnd k hk, AList.lookup_isSome]
      exact ⟨Or.inl, fun h => h.elim id (fun h => absurd h hk)⟩
  · have hp : k ∈ p := mem_of_Get_ne_nil hg
    rw [← AList.lookup_isSome, hne k hg, AList.lookup_isSome]
    exact ⟨Or.inl, fun _ => hp⟩

/-- C5, amended, at the default set `form=json` and the call-specific set of `TestBuildUrl`. -/
theorem mergeParams_keeps_nonempty_values_witness :
    hasValues (some formJson) = true ∧
    ∃ m, mergeParams (some formJson) (some testParams) = .ok (some m) ∧
      (∀ k, k ∈ m ↔ k ∈ testParams ∨ k ∈ formJson) ∧
      (∀ k, testParams.Get k ≠ [] → m.lookup k = testParams.lookup k) ∧
      (∀ k, k ∉ formJson → m.lookup k = testParams.lookup k) ∧
      (∀ k, k ∈ formJson → testParams.Get k = [] → m.lookup k = some [formJson.Get k]) :=
  ⟨by decide, (mergeParams_keeps_nonempty_values formJson testParams (by decide)).2.2.2⟩

/-- C6: for every identifier list, `buildUrl` returns base URL, path, `/`, the comma-join of
the list in which every id containing `/` is replaced by what follows its last `/` and every
other id is kept (same length, same order, duplicates kept), `?` and the encoded merged
parameters. Hence prefixing each id of a list free of `/` with a text ending in `/` does not
change the URL. -/
theorem buildUrl_identifier_segment (c : dsClient) (path : GoString) (params : Option Values)
    (ids : List GoString) (hd : hasValues c.baseParams = true) :
    ∃ merged ns,
      mergeParams c.baseParams params = .ok merged ∧
      List.Forall₂ IsTrailingId ids ns ∧
      buildUrl c path params (some ids) =
        .ok (c.baseUrl ++ path ++ ['/'] ++ Join ns [','] ++ ['?'] ++ Encode merged) ∧
      ∀ pres : List GoString, pres.length = ids.length → (∀ id ∈ ids, '/' ∉ id) →
        (∀ p ∈ pres, ∃ q : GoString, p = q ++ ['/']) →
        buildUrl c path params (some (List.zipWith (fun p id => p ++ id) pres ids)) =
          buildUrl c path params (some ids) := by
  obtain ⟨merged, hm⟩ := mergeParams_total c.baseParams params hd
  refine ⟨merged, ids.map normalizeId, hm, forall₂_normalizeId ids,
    by simp [buildUrl, hm], ?_⟩
  intro pres hlen hids hpres
  simp [buildUrl, hm, map_normalizeId_zipWith pres ids hlen hids hpres]

/-- C6 at the inputs of `TestBuildUrl`: the bare ids and the full URIs give the same URL. -/
theorem buildUrl_identifier_segment_witness :
    hasValues testClient.baseParams = true ∧
    buildUrl testClient "/data/Media".toList (some testParams) (some testUris) =
      .ok "http://mpx.theplatform.com/data/Media/123,456?form=json&schema=1.0".toList ∧
    ∃ merged ns,
      mergeParams testClient.baseParams (some testParams) = .ok merged ∧
      List.Forall₂ IsTrailingId testIds ns ∧
      buildUrl testClient "/data/Media".toList (some testParams) (some testIds) =
        .ok (testClient.baseUrl ++ "/data/Media".toList ++ ['/'] ++ Join ns [','] ++ ['?']
          ++ Encode merged) ∧
      ∀ pres : List GoString, pres.length = testIds.length →
        (∀ id ∈ testIds, '/' ∉ id) →
        (∀ p ∈ pres, ∃ q : GoString, p = q ++ ['/']) →
        buildUrl testClient "/data/Media".toList (some testParams)
            (some (List.zipWith (fun p id => p ++ id) pres testIds)) =
          buildUrl testClient "/data/Media".toList (some testParams) (some testIds) :=
  ⟨rfl, rfl, buildUrl_identifier_segment testClient "/data/Media".toList (some testParams)
    testIds rfl⟩

/-- C7, as stated, fails: with an identifier list that is empty but not nil, `buildUrl` puts
a `/` between the path and the `?`. -/
theorem buildUrl_empty_ids_adds_slash :
    buildUrl testClient "/data/Media".toList (some testParams) (some []) =
      .ok "http://mpx.theplatform.com/data/Media/?form=json&schema=1.0".toList ∧
    "http://mpx.theplatform.com/data/Media/?form=json&schema=1.0".toList ≠
      testClient.baseUrl ++ "/data/Media".toList ++ ['?'] ++ Encode (some testParams) := by
  refine ⟨rfl, ?_⟩
  decide

/-- C7, amended: for every base URL, path and parameter sets, `buildUrl` called with the nil
identifier list returns exactly base URL, path, `?` and the encoded merged parameters; the
encoding joins with `&` the `key=value` pairs of the keys in strictly ascending order; the
URL depends only on the bindings of the two parameter sets, not on the order in which they
were filled or are iterated. -/
theorem buildUrl_without_ids (c : dsClient) (path : GoString) (params : Option Values)
    (hd : hasValues c.baseParams = true) :
    ∃ merged,
      mergeParams c.baseParams params = .ok merged ∧
      buildUrl c path params none = .ok (c.baseUrl ++ path ++ ['?'] ++ Encode merged) ∧
      (∀ v : Values, merged = some v → ∃ ks : List GoString,
        ks.Sorted (fun a b => strLe a b = true ∧ a ≠ b) ∧ (∀ k, k ∈ ks ↔ k ∈ v) ∧
        Encode merged = Join (ks.flatMap (fun k => ((v.lookup k).getD []).map
          (fun x => QueryEscape k ++ ['='] ++ QueryEscape x))) ['&']) ∧
      ∀ (c2 : dsClient) (params2 : Option Values), c2.baseUrl = c.baseUrl →
        hasValues c2.baseParams = true → sameMapping c.baseParams c2.baseParams →
        sameMapping params params2 →
        buildUrl c2 path params2 none = buildUrl c path params none := by
  obtain ⟨merged, hm⟩ := mergeParams_total c.baseParams params hd
  refine ⟨merged, hm, by simp [buildUrl, hm], ?_, ?_⟩
  · intro v hv
    subst hv
    refine ⟨sortedKeys v, ?_, mem_sortedKeys v, rfl⟩
    exact List.Pairwise.and (sortedKeys_sorted v) (sortedKeys_nodup v)
  · intro c2 params2 hb h2 hsb hsp
    obtain ⟨merged2, hm2⟩ := mergeParams_total c2.baseParams params2 h2
    have e := Encode_mergeParams_congr hsb hsp hd h2 hm hm2
    simp [buildUrl, hm, hm2, hb, e]

/-- C7, amended, at the inputs of `TestBuildUrl`, with the parameters set in either order. -/
theorem buildUrl_without_ids_witness :
    hasValues testClient.baseParams = true ∧
    buildUrl testClient "/data/Media".toList (some testParams) none =
      .ok "http://mpx.theplatform.com/data/Media?form=json&schema=1.0".toList ∧
    buildUrl testClient "/data/Media".toList (some testParamsSwapped) none =
      buildUrl testClient "/data/Media".toList (some testParams) none :=
  ⟨rfl, rfl,
    (buildUrl_without_ids testClient "/data/Media".toList (some testParams) rfl).choose_spec.2.2.2
      testClient (some testParamsSwapped) rfl rfl trivial
      (fun _ => AList.perm_lookup (List.Perm.swap _ _ []))⟩

/-! ## The session manager: claims C1, C2, C3 -/

theorem Signin_success (env : Env) (w : World) (req : Request) (tok : GoString)
    (ht : w.auth.token = []) (hr : signinRequest env w.auth = .ok req)
    (hdo : env.Do w.sent Via.idmClient req = .response (some (signInEnvelope tok))) :
    Signin env w = .ret () { auth := { w.auth with token := tok },
                             sent := w.sent ++ [(Via.idmClient, req)] } := by
  unfold Signin
  simp only [ht, ne_eq, not_true_eq_false, if_false, hr, hdo]
  rfl

theorem Signin_keeps_token_empty (env : Env) (w : World) (req : Request)
    (body : Option JSON) (ht : w.auth.token = []) (hr : signinRequest env w.auth = .ok req)
    (hdo : env.Do w.sent Via.idmClient req = .response body)
    (hbody : Unmarshal body = .error .json ∨
      ∃ dat d, Unmarshal body = .ok dat ∧ (mapIndex dat "isException".toList).isSome = true ∧
        assertString (index dat "description".toList) = some d) :
    Signin env w = .ret () { w with sent := w.sent ++ [(Via.idmClient, req)] } := by
  unfold Signin
  simp only [ht, ne_eq, not_true_eq_false, if_false, hr, hdo]
  rcases hbody with h | ⟨dat, d, h1, h2, h3⟩
  · simp only [h]
  · simp only [h1, h2, h3, if_true]

theorem Signout_on_response (env : Env) (w : World) (req : Request) (body : Option JSON)
    (ht : w.auth.token ≠ []) (hr : signoutRequest env w.auth = .ok req)
    (hdo : env.Do w.sent Via.idmClient req = .response body) :
    Signout env w = .ret () { auth := { w.auth with token := [], registry := none },
                              sent := w.sent ++ [(Via.idmClient, req)] } := by
  unfold Signout
  simp only [ht, if_false, hr, hdo]

/-- C1, where the code departs from it: `Signin` panics, with a nil dereference at
`defer resp.Body.Close()`, when the request fails at transport level without a response,
and with a failed type assertion when the exception envelope has no description. -/
theorem Signin_panics_on_transport_failure :
    (Signin (exampleEnv refusedTransport) signedOutBob).panicked = some Panic.nilDeref ∧
    (Signin (exampleEnv (constTransport bareExceptionEnvelope)) signedOutBob).panicked
      = some Panic.typeAssert := by
  decide

/-- C2: `Signin` in a state with a token and `Signout` in a state without one return the
state as it is, the list of requests sent included; and against a server that answers every
sign-in with a token of its own, two `Signin` calls in a row from a signed-out state send
exactly one request and end with the token of that first answer. -/
theorem session_transitions_idempotent (env : Env) (w : World) :
    (w.auth.token ≠ [] → Signin env w = .ret () w) ∧
    (w.auth.token = [] → Signout env w = .ret () w) ∧
    (∀ (tok : List (Via × Request) → GoString) (req : Request),
      w.auth.token = [] → signinRequest env w.auth = .ok req →
      (∀ sent r, tok sent ≠ [] ∧
        env.Do sent Via.idmClient r = .response (some (signInEnvelope (tok sent)))) →
      ∃ w1, Signin env w = .ret () w1 ∧ Signin env w1 = .ret () w1 ∧
        w1.sent = w.sent ++ [(Via.idmClient, req)] ∧ w1.auth.token = tok w.sent ∧
        w1.auth.registry = w.auth.registry ∧ w1.auth.user = w.auth.user ∧
        w1.auth.pass = w.auth.pass) := by
  refine ⟨?_, ?_, ?_⟩
  · intro h
    simp [Signin, h]
  · intro h
    simp [Signout, h]
  · intro tok req ht hr hsrv
    refine ⟨_, Signin_success env w req (tok w.sent) ht hr (hsrv w.sent req).2, ?_, rfl, rfl,
      rfl, rfl, rfl⟩
    have hne := (hsrv w.sent req).1
    simp [Signin, hne]

/-- C2 at the sessions of `TestSignout` and `TestSignin` and a server with fresh tokens. -/
theorem session_transitions_idempotent_witness :
    Signin (exampleEnv freshTokenServer) signedInBob = .ret () signedInBob ∧
    Signout (exampleEnv freshTokenServer) signedOutBob = .ret () signedOutBob ∧
    ∃ w1, Signin (exampleEnv freshTokenServer) signedOutBob = .ret () w1 ∧
      Signin (exampleEnv freshTokenServer) w1 = .ret () w1 ∧
      idmCalls w1.sent = 1 ∧ w1.auth.token = ['t'] :=
  ⟨(session_transitions_idempotent (exampleEnv freshTokenServer) signedInBob).1 (by decide),
   (session_transitions_idempotent (exampleEnv freshTokenServer) signedOutBob).2.1 rfl,
   by
    obtain ⟨w1, h1, h2, h3, h4, _⟩ :=
      (session_transitions_idempotent (exampleEnv freshTokenServer) signedOutBob).2.2
        (fun sent => 't' :: List.replicate sent.length 'x') _ rfl rfl
        (fun sent r => ⟨by simp, rfl⟩)
    exact ⟨w1, h1, h2, by rw [h3]; rfl, by rw [h4]; rfl⟩⟩

/-- C3, where the code departs from it: when the sign-out request fails at transport level
without a response, `Signout` panics with a nil dereference at `defer resp.Body.Close()`,
after one request, and the token and the registry cache are still there. -/
theorem Signout_panics_on_transport_failure :
    (Signout (exampleEnv refusedTransport) signedInCached).panicked = some Panic.nilDeref ∧
    (Signout (exampleEnv refusedTransport) signedInCached).world.auth.token = testToken ∧
    (Signout (exampleEnv refusedTransport) signedInCached).world.auth.registry.isSome = true ∧
    idmCalls (Signout (exampleEnv refusedTransport) signedInCached).world.sent = 1 := by
  decide

/-! ## The data service client: claims C8, C9 -/

/-- C8, where the code departs from it: on a response with the key `isException`, `GetJSON`
does not return an error, it panics with the description as the panic value. -/
theorem GetJSON_panics_on_exception_envelope :
    (GetJSON registryClient (exampleEnv (constTransport exceptionEnvelope)) resolverBob
        "/data/Media".toList none none).panicked
      = some (Panic.explicit "Could not authenticate user".toList) ∧
    (GetJSON registryClient (exampleEnv (constTransport exceptionEnvelope)) resolverBob
        "/data/Media".toList none none).value.isNone = true := by
  decide

theorem assertInt_decode (j : JSON) : assertInt (decode j) = none := by
  cases j <;> rfl

theorem assertInt_mapIndex_decodeFields (l : List (GoString × JSON)) (k : GoString) :
    assertInt ((mapIndex (decodeFields l) k).getD .nil) = none := by
  induction l with
  | nil => rfl
  | cons kv rest ih =>
    obtain ⟨k1, v⟩ := kv
    simp only [decodeFields, mapIndex]
    cases h : mapIndex (decodeFields rest) k with
    | some w => rw [h] at ih; simpa using ih
    | none =>
      by_cases hk : k1 = k
      · simp [hk, assertInt_decode]
      · simp [hk, assertInt]

theorem assertInt_index_Unmarshal {body : Option JSON} {dat : GoMap}
    (h : Unmarshal body = .ok dat) (k : GoString) : assertInt (index dat k) = none := by
  unfold Unmarshal at h
  split at h
  · cases h; exact assertInt_mapIndex_decodeFields _ k
  · cases h; rfl
  · cases h

/-! ## What a call does to the session and to the list of requests -/

theorem fetches_append_idm (sent : List (Via × Request)) (req : Request) :
    fetches (sent ++ [(Via.idmClient, req)]) = fetches sent := by
  simp [fetches, List.filter_append]

theorem fetches_append_ds (sent : List (Via × Request)) (req : Request) :
    fetches (sent ++ [(Via.dsClient, req)]) = fetches sent + 1 := by
  simp [fetches, List.filter_append]

theorem Signin_world (env : Env) (w : World) :
    (Signin env w).world.auth.registry = w.auth.registry ∧
    (Signin env w).world.auth.accessClient = w.auth.accessClient ∧
    fetches (Signin env w).world.sent = fetches w.sent := by
  unfold Signin
  split
  · exact ⟨rfl, rfl, rfl⟩
  · split
    · exact ⟨rfl, rfl, rfl⟩
    · split
      · exact ⟨rfl, rfl, fetches_append_idm _ _⟩
      · exact ⟨rfl, rfl, fetches_append_idm _ _⟩
      · split
        · exact ⟨rfl, rfl, fetches_append_idm _ _⟩
        · split
          · split
            · exact ⟨rfl, rfl, fetches_append_idm _ _⟩
            · exact ⟨rfl, rfl, fetches_append_idm _ _⟩
          · split
            · exact ⟨rfl, rfl, fetches_append_idm _ _⟩
            · split
              · exact ⟨rfl, rfl, fetches_append_idm _ _⟩
              · exact ⟨rfl, rfl, fetches_append_idm _ _⟩

theorem Token_world (env : Env) (w : World) :
    (Token env w).world.auth.registry = w.auth.registry ∧
    (Token env w).world.auth.accessClient = w.auth.accessClient ∧
    fetches (Token env w).world.sent = fetches w.sent := by
  unfold Token
  split
  · have h := Signin_world env w
    cases hs : Signin env w with
    | ret a w1 => rw [hs] at h; exact h
    | panic p w1 => rw [hs] at h; exact h
  · exact ⟨rfl, rfl, rfl⟩

theorem buildRequest_world (c : dsClient) (env : Env) (w : World) (reqUrl : GoString) :
    (buildRequest c env w reqUrl).world.auth.registry = w.auth.registry ∧
    (buildRequest c env w reqUrl).world.auth.accessClient = w.auth.accessClient ∧
    fetches (buildRequest c env w reqUrl).world.sent = fetches w.sent := by
  unfold buildRequest
  split
  · exact ⟨rfl, rfl, rfl⟩
  · have h := Token_world env w
    cases hs : Token env w with
    | ret a w1 => rw [hs] at h; exact h
    | panic p w1 => rw [hs] at h; exact h

theorem GetJSON_ok_inv {c : dsClient} {env : Env} {w w2 : World} {path : GoString}
    {params : Option Values} {ids : Option (List GoString)} {dat : GoMap}
    (h : GetJSON c env w path params ids = .ret (.ok dat) w2) :
    (∃ body, Unmarshal body = .ok dat) ∧
    w2.auth.registry = w.auth.registry ∧ w2.auth.accessClient = w.auth.accessClient ∧
    fetches w2.sent = fetches w.sent + 1 := by
  unfold GetJSON at h
  split at h
  · cases h
  · rename_i reqUrl _
    have hw := buildRequest_world c env w reqUrl
    split at h
    · cases h
    · cases h
    · rename_i req w1 hb
      rw [hb] at hw
      simp only [Outcome.world] at hw
      split at h
      · cases h
      · cases h
      · rename_i body _
        split at h
        · cases h
        · rename_i dat1 hu
          split at h
          · split at h <;> cases h
          · cases h
            exact ⟨⟨body, hu⟩, hw.1, hw.2.1, by rw [fetches_append_ds, hw.2.2]⟩

theorem GetCount_never_returns_count (c : dsClient) (env : Env) (w w1 : World)
    (path : GoString) (params : Option Values) (ids : Option (List GoString)) (n : Int) :
    GetCount c env w path params ids ≠ .ret (.ok n) w1 := by
  intro h
  unfold GetCount at h
  split at h
  · cases h
  · dsimp only at h
    split at h
    · cases h
    · cases h
    · rename_i dat w2 hg
      obtain ⟨⟨body, hu⟩, _⟩ := GetJSON_ok_inv hg
      rw [assertInt_index_Unmarshal hu] at h
      cases h

/-- C9, where the code departs from it: the query goes out with `entries=false` and
`count=true`, but on a response whose `totalResults` is the number 5 `GetCount` panics (the
decoded number is a `float64`, the assertion asks for an `int`) instead of returning 5; and
with the nil parameter set it panics before any request, writing into a nil map. -/
theorem GetCount_panics_on_numeric_totalResults :
    (GetCount registryClient (exampleEnv (constTransport countEnvelope)) resolverBob
        "/data/Media".toList (some ∅) none).panicked = some Panic.typeAssert ∧
    (GetCount registryClient (exampleEnv (constTransport countEnvelope)) resolverBob
        "/data/Media".toList (some ∅) none).world.sent.map (fun r => r.2.url) =
      [countUrl] ∧
    (GetCount registryClient (exampleEnv (constTransport countEnvelope)) resolverBob
        "/data/Media".toList none none).panicked = some Panic.nilMapWrite ∧
    (GetCount registryClient (exampleEnv (constTransport (.obj []))) resolverBob
        "/data/Media".toList (some ∅) none).panicked = some Panic.typeAssert := by
  decide

/-! ## The registry resolver: claim C4 -/

theorem ResolveService_cached {env : Env} {w : World} {m : GoMap} {n u : GoString}
    (hr : w.auth.registry = some m) (hu : assertString (index m n) = some u) :
    ResolveService env w n = .ret u w := by
  unfold ResolveService
  simp only [hr, hu]

theorem ResolveService_fetch {env : Env} {w w1 : World} {c : dsClient} {regResp m : GoMap}
    {n u : GoString} (hr : w.auth.registry = none) (hc : w.auth.accessClient = some c)
    (hg : GetJSON c env w RegistryPath none none = .ret (.ok regResp) w1)
    (hm : assertMap (index regResp "resolveDomainResponse".toList) = some m)
    (hu : assertString (index m n) = some u) :
    ResolveService env w n = .ret u { w1 with auth := { w1.auth with registry := some m } } := by
  unfold ResolveService
  simp only [hr, hc, hg, hm, hu]

theorem ResolveService_uncached {env : Env} {w w3 : World} {n u : GoString}
    (hr : w.auth.registry = none) (h : ResolveService env w n = .ret u w3) (hu : u ≠ []) :
    fetches w3.sent = fetches w.sent + 1 := by
  unfold ResolveService at h
  simp only [hr] at h
  split at h
  · cases h
  · rename_i c hc
    split at h
    · cases h
    · cases h; exact absurd rfl hu
    · rename_i regResp w1 hg
      have hf := (GetJSON_ok_inv hg).2.2.2
      split at h
      · cases h
      · split at h
        · cases h
        · cases h; exact hf

theorem Signout_clears {env : Env} {w w1 : World} (ht : w.auth.token ≠ [])
    (h : Signout env w = .ret () w1) :
    w1.auth.token = [] ∧ w1.auth.registry = none ∧ fetches w1.sent = fetches w.sent := by
  unfold Signout at h
  rw [if_neg ht] at h
  split at h
  · cases h
  · split at h
    · cases h
    · cases h; exact ⟨rfl, rfl, fetches_append_idm _ _⟩

/-- C4, as stated, fails. The client `NewAuthClient` builds resolves a service while the
identity endpoint rejects the sign-in and the registry endpoint answers: the cache is filled
and the token stays empty (`boundary1`). `Signout` then returns at once and leaves the cache
(`boundary2`), `Signin` succeeds (`boundary3`), and the next `ResolveService` answers from
the old cache without a fetch, and so does the call after it. -/
theorem ResolveService_reads_cache_across_boundary :
    NewAuthClient retryEnv bobConfig = .client boundary0.auth ∧
    (ResolveService retryEnv boundary0 mediaService).value = some mediaUrl ∧
    fetches boundary1.sent = 1 ∧
    (Signout retryEnv boundary1).panicked = none ∧
    (Signin retryEnv boundary2).panicked = none ∧
    boundary3.auth.token = testToken ∧
    (ResolveService retryEnv boundary3 mediaService).value = some mediaUrl ∧
    fetches (ResolveService retryEnv boundary3 mediaService).world.sent = 1 ∧
    fetches (ResolveService retryEnv
      (ResolveService retryEnv boundary3 mediaService).world mediaService).world.sent = 1 := by
  refine ⟨rfl, ?_, ?_, ?_, ?_, ?_, ?_, ?_, ?_⟩ <;> decide

/-- C4, amended: in every state whose registry cache is empty, when the registry fetch
succeeds and registers both names, two successive `ResolveService` calls return the
registered URLs and perform exactly one registry fetch in total, the second call leaving the
state as it is; and in every state whose token is not empty, after a `Signout` and a `Signin`
that return, the cache is empty and no fetch was made: the next `ResolveService` returns the
URL of a newly fetched registry when that fetch succeeds, and whenever it returns a URL it
has performed a new registry fetch. -/
theorem registry_cache_discipline (env : Env) :
    (∀ (w w1 : World) (c : dsClient) (regResp m : GoMap) (n1 n2 u1 u2 : GoString),
      w.auth.registry = none → w.auth.accessClient = some c →
      GetJSON c env w RegistryPath none none = .ret (.ok regResp) w1 →
      assertMap (index regResp "resolveDomainResponse".toList) = some m →
      assertString (index m n1) = some u1 → assertString (index m n2) = some u2 →
      ∃ w2, ResolveService env w n1 = .ret u1 w2 ∧ ResolveService env w2 n2 = .ret u2 w2 ∧
        fetches w2.sent = fetches w.sent + 1) ∧
    (∀ w w1 w2 : World, w.auth.token ≠ [] → Signout env w = .ret () w1 →
      Signin env w1 = .ret () w2 →
      w2.auth.registry = none ∧ fetches w2.sent = fetches w.sent ∧
      (∀ (c : dsClient) (regResp m : GoMap) (w3 : World) (n u : GoString),
        w2.auth.accessClient = some c →
        GetJSON c env w2 RegistryPath none none = .ret (.ok regResp) w3 →
        assertMap (index regResp "resolveDomainResponse".toList) = some m →
        assertString (index m n) = some u →
        ∃ w4, ResolveService env w2 n = .ret u w4 ∧ w4.auth.registry = some m ∧
          fetches w4.sent = fetches w2.sent + 1) ∧
      (∀ (n u : GoString) (w3 : World), ResolveService env w2 n = .ret u w3 → u ≠ [] →
        fetches w3.sent = fetches w2.sent + 1)) := by
  refine ⟨?_, ?_⟩
  · intro w w1 c regResp m n1 n2 u1 u2 hr hc hg hm h1 h2
    refine ⟨_, ResolveService_fetch hr hc hg hm h1, ResolveService_cached rfl h2, ?_⟩
    exact (GetJSON_ok_inv hg).2.2.2
  · intro w w1 w2 ht hso hsi
    obtain ⟨_, hreg, hf⟩ := Signout_clears ht hso
    have hw := Signin_world env w1
    rw [hsi] at hw
    simp only [Outcome.world] at hw
    have hreg2 : w2.auth.registry = none := by rw [hw.1, hreg]
    refine ⟨hreg2, by rw [hw.2.2, hf], ?_, ?_⟩
    · intro c regResp m w3 n u hc hg hm hu
      exact ⟨_, ResolveService_fetch hreg2 hc hg hm hu, rfl, (GetJSON_ok_inv hg).2.2.2⟩
    · intro n u w3 h hu
      exact ResolveService_uncached hreg2 h hu

/-- C4, amended, at the session of `TestResolveService`: two resolutions with one fetch, and
a second fetch after `Signout` and `Signin`. -/
theorem registry_cache_discipline_witness :
    (∃ w2, ResolveService signedEnv resolverBob mediaService = .ret mediaUrl w2 ∧
      ResolveService signedEnv w2 mediaService = .ret mediaUrl w2 ∧
      fetches w2.sent = fetches resolverBob.sent + 1) ∧
    (session1.auth.registry.isSome = true ∧ session3.auth.registry = none ∧
      fetches session3.sent = fetches session1.sent ∧
      ∃ w4, ResolveService signedEnv session3 mediaService = .ret mediaUrl w4 ∧
        fetches w4.sent = fetches session3.sent + 1) :=
  ⟨(registry_cache_discipline signedEnv).1 resolverBob _ registryClient _ _ mediaService
      mediaService mediaUrl mediaUrl rfl rfl rfl rfl rfl rfl,
   by
    have h := (registry_cache_discipline signedEnv).2 session1 session2 session3
      (by decide) rfl rfl
    obtain ⟨w4, h4, _, h5⟩ := h.2.2.1 registryClient _ _ _ mediaService mediaUrl rfl rfl rfl rfl
    exact ⟨rfl, h.1, h.2.1, w4, h4, h5⟩⟩

/-! ## Construction: claim C10 -/

theorem firstBadUrl_eq_none (a b c : GoString) :
    firstBadUrl [a, b, c] = none ↔
      ParseRequestURI a = true ∧ ParseRequestURI b = true ∧ ParseRequestURI c = true := by
  simp only [firstBadUrl]
  cases ParseRequestURI a <;> cases ParseRequestURI b <;> cases ParseRequestURI c <;> simp

theorem unescapeOk_path_of_no_percent (s : GoString) (h : '%' ∉ s) :
    unescapeOk .encodePath s = true := by
  induction s with
  | nil => rfl
  | cons c rest ih =>
    have hc : c ≠ '%' := fun e => h (by simp [e])
    have hr : '%' ∉ rest := fun e => h (by simp [e])
    unfold unescapeOk
    simp [hc, ih hr]

theorem not_mem_takeWhile {c : Char} {s : GoString} (p : Char → Bool) (h : c ∉ s) :
    c ∉ s.takeWhile p :=
  fun e => h ((List.takeWhile_sublist p).subset e)

theorem ParseRequestURI_absolute_path (p : GoString)
    (hctl : stringContainsCTLByte p = false) (hp : '%' ∉ p) :
    ParseRequestURI ('/' :: p) = true := by
  have h1 : stringContainsCTLByte ('/' :: p) = false := by
    have h0 : (decide ('/'.toNat < 0x20) || decide ('/'.toNat = 0x7f)) = false := by decide
    simp only [stringContainsCTLByte, List.any_cons] at hctl ⊢
    rw [h0, hctl]; rfl
  have h2 : getScheme ('/' :: p) = some ([], '/' :: p) := by
    have e1 : isLetter '/' = false := by decide
    have e2 : (isDigit '/' || decide ('/' = '+') || decide ('/' = '-') || decide ('/' = '.'))
        = false := by decide
    have e3 : ¬ ('/' = ':') := by decide
    simp only [getScheme, getSchemeLoop, e1, e2, e3, if_false, Bool.false_eq_true]
  have h3 : ('/' :: p) ≠ ['*'] := by
    intro e
    have := (List.cons.inj e).1
    exact absurd this (by decide)
  have h4 : List.takeWhile (fun c => decide (c ≠ '?')) ('/' :: p)
      = '/' :: List.takeWhile (fun c => decide (c ≠ '?')) p := by
    rw [List.takeWhile_cons]
    simp
  have h5 : unescapeOk .encodePath ('/' :: List.takeWhile (fun c => decide (c ≠ '?')) p)
      = true := by
    apply unescapeOk_path_of_no_percent
    intro e
    rcases List.mem_cons.1 e with e | e
    · exact absurd e (by decide)
    · exact not_mem_takeWhile _ hp e
  unfold ParseRequestURI
  simp only [h1, h2, h3, h4, h5, Bool.false_eq_true, if_false, List.head?_cons, ne_eq,
    not_true_eq_false, not_false_eq_true, false_and, reduceCtorEq]

theorem dropWhile_append_of_all (p : Char → Bool) (t rest : GoString)
    (h : ∀ x ∈ t, p x = true) : (t ++ rest).dropWhile p = rest.dropWhile p := by
  induction t with
  | nil => rfl
  | cons x xs ih =>
    have hx : p x = true := h x (by simp)
    simp only [List.cons_append, List.dropWhile_cons, hx, if_true]
    exact ih (fun y hy => h y (by simp [hy]))

theorem isSchemeChar_of_isLetter {c : Char} (h : isLetter c = true) :
    isSchemeChar c = true := by
  simp [isSchemeChar, h]

theorem getSchemeLoop_spec (raw : GoString) (s : GoString) :
    ∀ (pre sch r : GoString), raw = pre ++ s →
      (pre ≠ [] →
        ∃ l t, pre = l :: t ∧ isLetter l = true ∧ ∀ x ∈ t, isSchemeChar x = true) →
      getSchemeLoop raw s pre.length = some (sch, r) →
      (sch = [] ∧ r = raw) ∨ beginsWithScheme raw = true := by
  induction s with
  | nil =>
    intro pre sch r _ _ h
    simp only [getSchemeLoop, Option.some.injEq, Prod.mk.injEq] at h
    exact Or.inl ⟨h.1.symm, h.2.symm⟩
  | cons c cs ih =>
    intro pre sch r hraw hinv h
    have hraw2 : raw = (pre ++ [c]) ++ cs := by rw [hraw]; simp
    have hlen : (pre ++ [c]).length = pre.length + 1 := by simp
    have hinv2 : isSchemeChar c = true → (pre = [] → isLetter c = true) →
        (pre ++ [c] ≠ [] → ∃ l t, pre ++ [c] = l :: t ∧ isLetter l = true ∧
          ∀ x ∈ t, isSchemeChar x = true) := by
      intro hc hfirst _
      cases pre with
      | nil => exact ⟨c, [], rfl, hfirst rfl, fun x hx => by simp at hx⟩
      | cons l t =>
        obtain ⟨l1, t1, e, hl, ht⟩ := hinv (by simp)
        obtain ⟨e1, e2⟩ := List.cons.inj e
        subst e1; subst e2
        refine ⟨l, t ++ [c], rfl, hl, ?_⟩
        intro x hx
        rcases List.mem_append.1 hx with hx | hx
        · exact ht x hx
        · simp only [List.mem_singleton] at hx; rw [hx]; exact hc
    unfold getSchemeLoop at h
    by_cases hl : isLetter c = true
    · simp only [hl, if_true] at h
      rw [← hlen] at h
      exact ih (pre ++ [c]) sch r hraw2 (hinv2 (isSchemeChar_of_isLetter hl) (fun _ => hl)) h
    · simp only [hl, Bool.false_eq_true, if_false] at h
      by_cases hd : (isDigit c || decide (c = '+') || decide (c = '-') || decide (c = '.')) = true
      · simp only [hd, if_true] at h
        by_cases h0 : pre.length = 0
        · simp only [h0, if_true, Option.some.injEq, Prod.mk.injEq] at h
          exact Or.inl ⟨h.1.symm, h.2.symm⟩
        · simp only [h0, if_false] at h
          rw [← hlen] at h
          have hsc : isSchemeChar c = true := by
            have hl2 : isLetter c = false := by simpa using hl
            simpa [isSchemeChar, hl2, Bool.or_assoc] using hd
          have hne : pre ≠ [] := fun e => h0 (by simp [e])
          exact ih (pre ++ [c]) sch r hraw2 (hinv2 hsc (fun e => absurd e hne)) h
      · simp only [hd, Bool.false_eq_true, if_false] at h
        by_cases hcol : c = ':'
        · simp only [hcol, if_true] at h
          by_cases h0 : pre.length = 0
          · simp [h0] at h
          · have hne : pre ≠ [] := fun e => h0 (by simp [e])
            obtain ⟨l, t, e, hlet, ht⟩ := hinv hne
            right
            have hcolon : isSchemeChar ':' = false := by decide
            rw [hraw, e, hcol]
            simp only [beginsWithScheme, List.cons_append, hlet, Bool.true_and]
            rw [dropWhile_append_of_all isSchemeChar t _ ht]
            simp [List.dropWhile_cons, hcolon]
        · simp only [hcol, if_false, Option.some.injEq, Prod.mk.injEq] at h
          exact Or.inl ⟨h.1.symm, h.2.symm⟩

theorem head?_of_head?_takeWhile {p : Char → Bool} {s : GoString} {c : Char}
    (h : (s.takeWhile p).head? = some c) : s.head? = some c := by
  cases s with
  | nil => simp at h
  | cons x xs =>
    by_cases hx : p x = true
    · simpa [List.takeWhile_cons, hx] using h
    · simp [List.takeWhile_cons, hx] at h

theorem ParseRequestURI_accepts_only (u : GoString) (h : ParseRequestURI u = true) :
    beginsWithScheme u = true ∨ u.head? = some '/' ∨ u = ['*'] := by
  unfold ParseRequestURI at h
  split at h
  · cases h
  · split at h
    · cases h
    · split at h
      · rename_i hstar
        exact Or.inr (Or.inr hstar)
      · split at h
        · cases h
        · rename_i scheme rest0 hg
          rcases getSchemeLoop_spec u u [] scheme rest0 rfl (fun e => absurd rfl e) hg with
            ⟨hs, hr⟩ | hb
          · subst hs; subst hr
            dsimp only at h
            split at h
            · simp at h
            · rename_i hhead
              simp only [ne_eq, not_not] at hhead
              exact Or.inr (Or.inl (head?_of_head?_takeWhile hhead))
          · exact Or.inl hb

/-- C10, as stated, fails: the account `/data/Account/1` is a bare path, it begins with no
scheme and so is no absolute URL; yet, with `User` and `Password` set and the default access
and identity URLs, `NewAuthClient` returns a client on that account and no error. -/
theorem NewAuthClient_accepts_bare_path :
    pathAcctConfig.User ≠ [] ∧ pathAcctConfig.Password ≠ [] ∧
    beginsWithScheme pathAcctConfig.Acct = false ∧
    NewAuthClient (exampleEnv refusedTransport) pathAcctConfig = .client pathAcctBob :=
  ⟨by decide, by decide, by decide, rfl⟩

/-- C10, amended: `NewAuthClient` returns an error if and only if `User` is empty, or
`Password` is empty, or `url.ParseRequestURI` rejects the effective access, identity or
account value (the configured one, or the default constant when the field is empty); when it
returns a client for a configuration with empty `Acct`, `Account()` is `DefaultAcct`. What
`url.ParseRequestURI` accepts begins with a scheme, or begins with `/`, or is `*`; and it
accepts every text that begins with `/` and has no control character and no `%`. -/
theorem NewAuthClient_validation (env : Env) (conf : AuthConfig) :
    ((∃ e, NewAuthClient env conf = .err e) ↔
      (conf.User = [] ∨ conf.Password = [] ∨
        ParseRequestURI (if conf.Access = [] then DefaultAccess else conf.Access) = false ∨
        ParseRequestURI (if conf.Idm = [] then DefaultIdm else conf.Idm) = false ∨
        ParseRequestURI (if conf.Acct = [] then DefaultAcct else conf.Acct) = false)) ∧
    (∀ a, conf.Acct = [] → NewAuthClient env conf = .client a → Account a = DefaultAcct) ∧
    (∀ u, ParseRequestURI u = true →
      beginsWithScheme u = true ∨ u.head? = some '/' ∨ u = ['*']) ∧
    (∀ p, stringContainsCTLByte p = false → '%' ∉ p →
      ParseRequestURI ('/' :: p) = true) := by
  have hb := firstBadUrl_eq_none (StringParamDefault conf.Access DefaultAccess)
    (StringParamDefault conf.Idm DefaultIdm) (StringParamDefault conf.Acct DefaultAcct)
  refine ⟨⟨?_, ?_⟩, ?_, ParseRequestURI_accepts_only, ParseRequestURI_absolute_path⟩
  · rintro ⟨e, he⟩
    by_contra hcon
    simp only [not_or, Bool.not_eq_false] at hcon
    obtain ⟨hu, hp, h1, h2, h3⟩ := hcon
    have hnone := hb.2 ⟨h1, h2, h3⟩
    unfold NewAuthClient at he
    dsimp only at he
    simp only [hnone, hu, hp, if_false] at he
    split at he
    · cases he
    · split at he <;> cases he
  · intro h
    unfold NewAuthClient
    dsimp only
    cases hf : firstBadUrl [StringParamDefault conf.Access DefaultAccess,
        StringParamDefault conf.Idm DefaultIdm, StringParamDefault conf.Acct DefaultAcct] with
    | some u => exact ⟨_, rfl⟩
    | none =>
      obtain ⟨h1, h2, h3⟩ := hb.1 hf
      simp only [StringParamDefault] at h1 h2 h3
      rcases h with h | h | h | h | h
      · simp [h]
      · by_cases hu : conf.User = []
        · simp [hu]
        · simp [hu, h]
      · rw [h1] at h; cases h
      · rw [h2] at h; cases h
      · rw [h3] at h; cases h
  · intro a hacct h
    unfold NewAuthClient at h
    dsimp only at h
    split at h
    · cases h
    · split at h
      · cases h
      · split at h
        · cases h
        · split at h
          · cases h
          · split at h
            · cases h
            · cases h
              simp [Account, StringParamDefault, hacct]

/-- C10, amended, at the configurations of `TestNewAuthClient`: without password and with
the account `VMS POC VOD Ingest` the constructor returns an error, the minimal configuration
gives a client on the default account; and the bare path `/data/Account/1` is accepted. -/
theorem NewAuthClient_validation_witness :
    (∃ e, NewAuthClient retryEnv noPasswordConfig = .err e) ∧
    (∃ e, NewAuthClient retryEnv ingestAcctConfig = .err e) ∧
    NewAuthClient retryEnv bobConfig = .client constructedBob ∧
    Account constructedBob = DefaultAcct ∧
    (beginsWithScheme DefaultAcct = true ∨ DefaultAcct.head? = some '/'
      ∨ DefaultAcct = ['*']) ∧
    ParseRequestURI ('/' :: "data/Account/1".toList) = true :=
  ⟨(NewAuthClient_validation retryEnv noPasswordConfig).1.2 (Or.inr (Or.inl rfl)),
   (NewAuthClient_validation retryEnv ingestAcctConfig).1.2
     (Or.inr (Or.inr (Or.inr (Or.inr (by decide))))),
   rfl,
   (NewAuthClient_validation retryEnv bobConfig).2.1 constructedBob rfl rfl,
   (NewAuthClient_validation retryEnv bobConfig).2.2.1 DefaultAcct (by decide),
   (NewAuthClient_validation retryEnv bobConfig).2.2.2 "data/Account/1".toList
     (by decide) (by decide)⟩

end Mpx
